import Mathlib

/-! # Pokemon Tabletop United system: attack checks and trainer derived data

A shallow embedding of

* `src/module/system/check/attack.js` (class `PTUAttackCheck`): the difficulty
  classes computed by `execute`, the three fail checks, `prepareModifiers` and the
  `executeAttack` pipeline;
* `src/module/actor/character/document.js` (class `PTUTrainerActor`): the level of
  `prepareBaseData` and, of `prepareDerivedData`, the modifier pass, the stat
  points, the health block and the contest stats.

JavaScript `Set`s of roll options are lists of strings queried with `contains`
(`Set.prototype.has`), a `Map` is an association list in insertion order, and a
method that can throw returns `Except`.
-/

namespace PTU

/-! ## Data model -/

/-- The evasion block `actor.system.evasion` of a target. -/
structure Evasion where
  physical : Int
  special : Int
  speed : Int
  deriving DecidableEq, Repr

/-- One target context of a check (an entry of `this._contexts`). `distance` is
`none` when `typeof context.distance !== "number"`. -/
structure TargetContext where
  uuid : String
  options : List String
  distance : Option Int
  evasion : Evasion
  deriving DecidableEq, Repr

/-- The value of a modifier: a finite number or the `Infinity` sentinel. -/
inductive ModifierValue where
  | fin (v : Int)
  | infinity
  deriving DecidableEq, Repr

/-- The arguments handed to `new PTUModifier({ slug, label, modifier })`. -/
structure PTUModifier where
  slug : String
  label : String
  modifier : ModifierValue
  deriving DecidableEq, Repr

/-- The fields of `this.item` that the attack check reads. `acNumber` is
`Number(this.item.system.ac)`, with `none` standing for `NaN`; `category` is
`this.item?.system.category`. -/
structure Item where
  name : String
  category : Option String
  acNumber : Option Int
  range : String
  deriving DecidableEq, Repr

/-- The fields of `this.actor` that the attack check reads: `critRangeTotal` is
`system.modifiers?.critRange?.total` (`none` when missing) and `acBonusTotal` is
`system.modifiers.acBonus.total`. -/
structure Actor where
  uuid : String
  critRangeTotal : Option Int
  acBonusTotal : Int
  evasion : Evasion
  deriving DecidableEq, Repr

/-- The two automation settings read through `game.settings.get("ptu", ...)`. -/
structure Settings where
  failAttackIfOutOfRange : Bool
  failAttackIfNoTarget : Bool
  deriving DecidableEq, Repr

/-- The state of a `PTUAttackCheck`: `contexts` is `this._contexts`. -/
structure Check where
  actor : Actor
  item : Item
  selectors : List String
  options : List String
  conditionOptions : List String
  contexts : List TargetContext
  modifiers : List PTUModifier
  deriving DecidableEq, Repr

/-- One entry of the `targets` map of the `DcCollection` built by `execute`;
`slug` and `value` stay `none` (JavaScript `undefined`) when no branch assigns
them. -/
structure DcTarget where
  uuid : String
  critRange : List Int
  slug : Option String
  value : Option Int
  deriving DecidableEq, Repr

/-- The getter `isSelfAttack`: `this.selectors.includes("self-attack")`. -/
def isSelfAttack (c : Check) : Bool := c.selectors.contains "self-attack"

/-- The getter `isRangedAttack`: `this.selectors.includes("ranged-attack")`. -/
def isRangedAttack (c : Check) : Bool := c.selectors.contains "ranged-attack"

/-! ## `execute`: difficulty classes -/

/-- Modelled from the spec: the primitive `Array.fromRange(n, min)` belongs to the
Foundry host, not to this repository; it returns the array of the `n` consecutive
integers starting at `min`. -/
def fromRange (n : Nat) (min : Int) : List Int :=
  (List.range n).map (fun (i : Nat) => (i : Int) + min)

/-- Lines 115-116 of `attack.js`:
`critMod = this.actor.system.modifiers?.critRange?.total ?? 0` and
`critRange = Array.fromRange(1 + Math.max(critMod, 0), 20 - Math.max(critMod, 0))`. -/
def critRange (critRangeTotal : Option Int) : List Int :=
  let critMod := critRangeTotal.getD 0
  fromRange (1 + max critMod 0).toNat (20 - max critMod 0)

/-- The body of `case "Status":` (lines 137-138); `speed ?? 0` is `speed` on a
number. -/
def caseStatus (stuck : Bool) (ev : Evasion) (target : DcTarget) : DcTarget :=
  { target with slug := some "speed-evasion", value := some (if stuck then 0 else ev.speed) }

/-- The body of `case "Physical":` (lines 141-149). -/
def casePhysical (stuck : Bool) (ev : Evasion) (target : DcTarget) : DcTarget :=
  if (if stuck then true else decide (ev.physical > ev.speed)) then
    { target with slug := some "physical-evasion", value := some ev.physical }
  else
    { target with slug := some "speed-evasion", value := some ev.speed }

/-- The body of `case "Special":` (lines 152-160). -/
def caseSpecial (stuck : Bool) (ev : Evasion) (target : DcTarget) : DcTarget :=
  if (if stuck then true else decide (ev.special > ev.speed)) then
    { target with slug := some "special-evasion", value := some ev.special }
  else
    { target with slug := some "speed-evasion", value := some ev.speed }

/-- The `switch (this.item?.system.category)` statement of lines 135-162. No case
body ends in `break`, so control enters at the matching label and runs every
later case body as well. -/
def switchCategory (category : Option String) (stuck : Bool) (ev : Evasion)
    (target : DcTarget) : DcTarget :=
  if category = some "Status" then
    caseSpecial stuck ev (casePhysical stuck ev (caseStatus stuck ev target))
  else if category = some "Physical" then
    caseSpecial stuck ev (casePhysical stuck ev target)
  else if category = some "Special" then
    caseSpecial stuck ev target
  else
    target

/-- The body of the loop `for (const context of contexts)` (lines 121-165): the
entry stored under `context.actor.uuid`. -/
def dcTarget (category : Option String) (critRange : List Int) (context : TargetContext) :
    DcTarget :=
  let target : DcTarget :=
    { uuid := context.uuid, critRange := critRange, slug := none, value := none }
  if context.options.contains "target:condition:vulnerable" then
    { target with slug := some "vulnerable", value := some 0 }
  else
    let stuck := context.options.contains "target:condition:stuck"
      && !context.options.contains "target:types:ghost"
    switchCategory category stuck context.evasion target

/-- The method `Map.prototype.set`: replaces the value of an existing key in place, appends a
new key at the end. -/
def mapSet (m : List (String × DcTarget)) (k : String) (v : DcTarget) :
    List (String × DcTarget) :=
  match m with
  | [] => [(k, v)]
  | (k', v') :: rest => if k' = k then (k, v) :: rest else (k', v') :: mapSet rest k v

/-- The method `Map.prototype.get`. -/
def mapGet (m : List (String × DcTarget)) (k : String) : Option DcTarget :=
  match m with
  | [] => none
  | (k', v') :: rest => if k' = k then some v' else mapGet rest k

/-- Line 119: the contexts iterated by `execute`, falling back to the acting
entity itself when `this._contexts` is empty. -/
def executeContexts (c : Check) : List TargetContext :=
  if c.contexts.length > 0 then c.contexts
  else [{ uuid := c.actor.uuid, options := c.options, distance := none,
          evasion := c.actor.evasion }]

/-- The `targets` map of the `dcs` object built by `execute` (lines 113-172). -/
def dcs (c : Check) : List (String × DcTarget) :=
  (executeContexts c).foldl
    (fun targets context =>
      mapSet targets context.uuid
        (dcTarget c.item.category (critRange c.actor.critRangeTotal) context))
    []

/-! ## JavaScript numbers -/

/-- The exponent `e` of the binade of a non-zero rational: `2 ^ e ≤ |q| < 2 ^ (e + 1)`. -/
def binade (q : ℚ) : ℤ := Int.log 2 |q|

/-- Rounding to the nearest integer, a tie going to the even neighbour. -/
def roundHalfEven (q : ℚ) : ℤ :=
  if q - ⌊q⌋ < 1 / 2 then ⌊q⌋
  else if 1 / 2 < q - ⌊q⌋ then ⌊q⌋ + 1
  else if ⌊q⌋ % 2 = 0 then ⌊q⌋ else ⌊q⌋ + 1

/-- The double (IEEE 754 binary64, 53 bits of significand, round to nearest with
ties to even) that a JavaScript arithmetic operation returns when its exact result
is `q`. A finite double is a rational number, and a Number of the source is
modelled by the rational it denotes. The exponent range is left unbounded:
overflow and subnormal numbers are out of reach of the magnitudes considered. -/
def fl (q : ℚ) : ℚ :=
  if q = 0 then 0 else roundHalfEven (q / 2 ^ (binade q - 52)) * 2 ^ (binade q - 52)

/-- The function `Math.trunc`: rounding toward zero. -/
def trunc (q : ℚ) : ℤ := if 0 ≤ q then ⌊q⌋ else ⌈q⌉

/-! ## Fail checks -/

/-- The result of `String.prototype.match(/\d+/)?.[0]`: the first maximal run of
decimal digits of the string, `none` when the string has no digit. -/
def matchDigits (s : List Char) : Option (List Char) :=
  let run := (s.dropWhile (fun ch => !ch.isDigit)).takeWhile Char.isDigit
  if run.isEmpty then none else some run

/-- The number that a string of decimal digits writes in base 10. -/
def decimalValue (digits : List Char) : Nat :=
  digits.foldl (fun acc ch => 10 * acc + (ch.toNat - 48)) 0

/-- The Number a string of decimal digits is converted to when it is compared with
a number (`ToNumber` on a digit string): the double nearest to the number
written, which is that number itself when it is below `2 ^ 53`. -/
def toNumber (digits : List Char) : ℚ :=
  fl (decimalValue digits)

/-- The `range` computed at lines 257-260 of `attack.js`, as the Number it is
compared as: `this.item.system.range.match(/\d+/)?.[0] ?? 1` for a ranged attack
and `1` otherwise. -/
def range (c : Check) : ℚ :=
  if isRangedAttack c then
    match matchDigits c.item.range.toList with
    | some digits => toNumber digits
    | none => 1
  else 1

/-- The loop of `attackOutOfRange` (lines 254-266) over the contexts still to be
visited: the returned boolean and the warnings issued. -/
def attackOutOfRangeLoop (c : Check) : List TargetContext → Bool × List String
  | [] => (true, [])
  | context :: rest =>
    match context.distance with
    | none => attackOutOfRangeLoop c rest
    | some distance =>
      if (distance : ℚ) > range c then (false, ["PTU.Action.AttackOutOfRange"])
      else attackOutOfRangeLoop c rest

/-- The method `attackOutOfRange()` (lines 252-269): the returned boolean and the warnings
sent to `ui.notifications.warn`. -/
def attackOutOfRange (settings : Settings) (c : Check) : Bool × List String :=
  if !isSelfAttack c && settings.failAttackIfOutOfRange then
    attackOutOfRangeLoop c c.contexts
  else (true, [])

/-- The method `attackNoTargets()` (lines 275-283). -/
def attackNoTargets (settings : Settings) (c : Check) : Bool × List String :=
  if settings.failAttackIfNoTarget then
    if c.contexts.length = 0 then (false, ["PTU.Action.NoTarget"]) else (true, [])
  else (true, [])

/-- What the free identifiers `selectors`, `rollOptions` and `move` of
`attackDisabled` resolve to in the scope enclosing the method; `none` is an
identifier with no binding, whose evaluation throws a `ReferenceError`. -/
structure Scope where
  selectors : Option (List String)
  rollOptions : Option (List String)
  moveSlug : Option String
  deriving DecidableEq, Repr

/-- The scope of the module `attack.js`: it imports `sluggify`, `PTUModifier`,
`StatisticModifier`, `PTUCondition`, `PTUDiceCheck` and `AttackRoll` and declares
`PTUAttackCheck`; none of `selectors`, `rollOptions`, `move` is bound. -/
def moduleScope : Scope := { selectors := none, rollOptions := none, moveSlug := none }

/-- The method `attackDisabled()` (lines 289-315): the returned boolean with the warnings
issued, or the error thrown. -/
def attackDisabled (scope : Scope) (c : Check) : Except String (Bool × List String) :=
  if c.options.contains "condition:cannot-attack" then
    .ok (false, ["PTU.Action.CannotAttack"])
  else if c.conditionOptions.contains "condition:frozen" then
    .ok (false, ["PTU.Action.MoveWhileFrozen"])
  else if c.conditionOptions.contains "condition:sleep" then
    .ok (false, ["PTU.Action.MoveWhileSleeping"])
  else do
    let rage ←
      if c.conditionOptions.contains "condition:rage" then
        match scope.selectors with
        | none => throw "ReferenceError: selectors is not defined"
        | some selectors => pure (selectors.contains "status-attack")
      else pure false
    if rage then return (false, ["PTU.Action.StatusAttackWhileRaging"])
    let disabled ←
      if c.conditionOptions.contains "condition:disabled" then
        match scope.rollOptions, scope.moveSlug with
        | none, _ => throw "ReferenceError: rollOptions is not defined"
        | some _, none => throw "ReferenceError: move is not defined"
        | some rollOptions, some slug => pure (rollOptions.contains ("condition:disabled:" ++ slug))
      else pure false
    if disabled then return (false, ["PTU.Action.DisabledMove"])
    let suppressed ←
      if c.conditionOptions.contains "condition:suppressed" then
        match scope.selectors with
        | none => throw "ReferenceError: selectors is not defined"
        | some selectors => pure (!selectors.contains "at-will-attack")
      else pure false
    if suppressed then return (false, ["PTU.Action.SuppressedMove"])
    return (true, [])

/-! ## `prepareModifiers` -/

/-- The method `prepareModifiers()` (lines 43-66). `superPrepareModifiers` is the inherited
`PTUDiceCheck.prepareModifiers`, which leaves its modifiers in `this.modifiers`. -/
def prepareModifiers (superPrepareModifiers : Check → Check) (c : Check) : Check :=
  let c := superPrepareModifiers c
  let modifiers : List PTUModifier :=
    { slug := "accuracy-check", label := "Accuracy Check",
      modifier := match c.item.acNumber with
        | none => ModifierValue.infinity
        | some ac => ModifierValue.fin (-ac) } :: c.modifiers
  let modifiers :=
    if c.actor.acBonusTotal != 0 then
      modifiers ++ [{ slug := "accuracy-bonus", label := "Accuracy Bonus",
                      modifier := ModifierValue.fin c.actor.acBonusTotal }]
    else modifiers
  { c with modifiers := modifiers }

/-! ## The `executeAttack` pipeline -/

/-- The methods `executeAttack` calls, in the order of lines 229-239. -/
inductive Stage where
  | prepareContexts
  | attackNoTargets
  | attackOutOfRange
  | attackDisabled
  | prepareModifiers
  | prepareStatistic
  | beforeRoll
  | execute
  | afterRoll
  deriving DecidableEq, Repr

/-- The methods of the parent class `PTUDiceCheck` (file `check.js`) and of the
actor that `PTUAttackCheck` relies on, taken as parameters: `selfContext` is
`this.actor.getContext` for a self attack, the fields named `super...` are the
inherited methods called through `super`, `beforeRoll` is inherited unchanged and
`afterRoll` is the override of lines 187-190 (confusion handling, then the inherited
method). `superExecute` performs the random draw and returns the roll (`none` for
a null roll). -/
structure Host (Roll : Type) where
  selfContext : Check → TargetContext
  superPrepareContexts : Check → Check
  superPrepareModifiers : Check → Check
  superPrepareStatistic : Check → Check
  beforeRoll : Check → Check
  superExecute : Check → List (String × DcTarget) → Option Roll
  afterRoll : Check → Check

/-- The method `prepareContexts()` (lines 25-37): a self attack has the single context that
`this.actor.getContext` returns, any other attack defers to the inherited method. -/
def prepareContexts {Roll : Type} (host : Host Roll) (c : Check) : Check :=
  if isSelfAttack c then { c with contexts := [host.selfContext c] }
  else host.superPrepareContexts c

/-- The method `execute()` (lines 86-184): builds `dcs` and hands it to the inherited
`execute`, which draws the die. -/
def execute {Roll : Type} (host : Host Roll) (c : Check) : Option Roll :=
  host.superExecute c (dcs c)

/-- What one call of `executeAttack` did: the methods invoked in order, the
warnings issued, and the value returned (`none` is `null`) or the error thrown. -/
structure Run (Roll : Type) where
  trace : List Stage
  warnings : List String
  result : Except String (Option Roll)

/-- The method `executeAttack()` (lines 228-242). -/
def executeAttack {Roll : Type} (host : Host Roll) (settings : Settings) (scope : Scope)
    (c : Check) : Run Roll :=
  let c := prepareContexts host c
  let trace := [Stage.prepareContexts, Stage.attackNoTargets]
  let noTargets := attackNoTargets settings c
  if !noTargets.1 then
    { trace := trace, warnings := noTargets.2, result := .ok none }
  else
    let trace := trace ++ [Stage.attackOutOfRange]
    let outOfRange := attackOutOfRange settings c
    if !outOfRange.1 then
      { trace := trace, warnings := noTargets.2 ++ outOfRange.2, result := .ok none }
    else
      let trace := trace ++ [Stage.attackDisabled]
      match attackDisabled scope c with
      | .error e =>
        { trace := trace, warnings := noTargets.2 ++ outOfRange.2, result := .error e }
      | .ok disabled =>
        let warnings := noTargets.2 ++ outOfRange.2 ++ disabled.2
        if !disabled.1 then
          { trace := trace, warnings := warnings, result := .ok none }
        else
          let c := prepareModifiers host.superPrepareModifiers c
          let c := host.superPrepareStatistic c
          let c := host.beforeRoll c
          let roll := execute host c
          let _c := host.afterRoll c
          { trace := trace ++ [Stage.prepareModifiers, Stage.prepareStatistic,
              Stage.beforeRoll, Stage.execute, Stage.afterRoll],
            warnings := warnings, result := .ok roll }

/-! ## The health block of `prepareDerivedData` -/

/-- The operand
`system.modifiers.hardened ? Math.min(system.health.injuries, 5) : system.health.injuries`
of line 131 of `document.js`. -/
def reducedInjuries (injuries : ℤ) (hardened : Bool) : ℤ :=
  if hardened then min injuries 5 else injuries

/-- The value of `system.health.max` set at line 131 of `document.js`:
`injuries > 0 ? Math.trunc(total * (1 - (reduced / 10))) : total`, where the
division, the subtraction and the multiplication are double-precision operations.
`total` and `injuries` are integer-valued Numbers. -/
def healthMax (total injuries : ℤ) (hardened : Bool) : ℤ :=
  if injuries > 0 then
    trunc (fl ((total : ℚ) * fl (1 - fl ((reducedInjuries injuries hardened : ℚ) / 10))))
  else total

/-- The function `Math.floor`. -/
def mathFloor (q : ℚ) : ℤ := ⌊q⌋

/-- The function `Math.round`: the nearest integer, a tie going to the larger
neighbour. -/
def mathRound (q : ℚ) : ℤ := ⌊q + 1 / 2⌋

/-- The value of `system.health.tick` set at line 135 of `document.js`:
`Math.floor(system.health.total / 10)`, the division being a double-precision
operation. -/
def healthTick (total : ℤ) : ℤ := mathFloor (fl ((total : ℚ) / 10))

/-- A Number that `Math.round` can return: an integer, or a value that is not
finite; `infinite` stands for `Infinity` and `-Infinity`. -/
inductive Rounded where
  | int (n : ℤ)
  | infinite
  | nan
  deriving DecidableEq, Repr

/-- The expression `Math.round((value / divisor) * 100)` of lines 133-134 of
`document.js`, with `divisor` being `system.health.max` for `health.percent` and
`system.health.total` for `health.totalPercent`. The division and the
multiplication are double-precision operations; a division by zero gives `NaN`
for a value of 0 and otherwise `Infinity` or `-Infinity` (by the signs of the value
and of the zero), which the multiplication and `Math.round` hand on. -/
def healthPercent (value divisor : ℤ) : Rounded :=
  if divisor = 0 then
    if value = 0 then Rounded.nan else Rounded.infinite
  else Rounded.int (mathRound (fl (fl ((value : ℚ) / divisor) * 100)))

/-- The health block that lines 131-135 of `document.js` derive from the health
total, the current value, the injuries and the hardened flag. -/
structure Health where
  total : ℤ
  max : ℤ
  value : ℤ
  percent : Rounded
  totalPercent : Rounded
  tick : ℤ
  deriving DecidableEq, Repr

/-- Lines 131-135 of `document.js`. -/
def deriveHealth (total value injuries : ℤ) (hardened : Bool) : Health :=
  { total := total
    max := healthMax total injuries hardened
    value := value
    percent := healthPercent value (healthMax total injuries hardened)
    totalPercent := healthPercent value total
    tick := healthTick total }

/-! ## Level, stat points and actual level -/

/-- Modelled from the spec: the primitive `Math.clamped(num, min, max)` belongs to
the Foundry host, not to this repository; it returns
`Math.min(max, Math.max(num, min))`, the number clamped into the interval. -/
def clamped (num lower upper : ℤ) : ℤ := min upper (max num lower)

/-- The level cap of line 40 of `document.js`:
`game.settings.get("ptu", "variant.trainerRevamp") ? 25 : 50`. -/
def levelCap (trainerRevamp : Bool) : ℤ := if trainerRevamp then 25 else 50

/-- The value of `system.level.dexexp` set at line 33 of `document.js`:
`useDexExp == true ? (this.system.dex?.owned?.length || 0) : 0`, where `owned` is
the number of owned entries (`none` when the list is missing). -/
def dexexp (useDexExp : Bool) (owned : Option ℕ) : ℤ :=
  if useDexExp then ((owned.getD 0 : ℕ) : ℤ) else 0

/-- The first argument of `Math.clamped` at lines 36-38 of `document.js`:
`1 + Number(milestones) + Math.trunc((Number(miscexp) / 10) + (Number(dexexp) / 10))`.
The two divisions and the addition inside `Math.trunc` are double-precision
operations; the outer additions are additions of integers. -/
def unclampedLevel (milestones miscexp dexexp : ℤ) : ℤ :=
  1 + milestones + trunc (fl (fl ((miscexp : ℚ) / 10) + fl ((dexexp : ℚ) / 10)))

/-- The value of `system.level.current` set at lines 34-41 of `document.js`. -/
def levelCurrent (trainerRevamp : Bool) (milestones miscexp dexexp : ℤ) : ℤ :=
  clamped (unclampedLevel milestones miscexp dexexp) 1 (levelCap trainerRevamp)

/-- The value of `system.levelUpPoints` set at line 105 of `document.js`:
`(trainerRevamp ? (level.current * 2) : level.current) + modifiers.statPoints.total + 9`.
Line 128 later replaces the field by the points that `calculatePTStatTotal` leaves
over. -/
def levelUpPoints (trainerRevamp : Bool) (levelCurrent statPointsTotal : ℤ) : ℤ :=
  (if trainerRevamp then levelCurrent * 2 else levelCurrent) + statPointsTotal + 9

/-- The constant `leftoverLevelUpPoints` of line 110 of `document.js`:
`system.levelUpPoints - Object.values(system.stats).reduce((a, v) => v.levelUp + a, 0)`,
where `levelUp` lists the points invested in each stat. -/
def leftoverLevelUpPoints (levelUpPoints : ℤ) (levelUp : List ℤ) : ℤ :=
  levelUpPoints - levelUp.foldl (fun a v => v + a) 0

/-- The constant `actualLevel` of line 111 of `document.js`:
`Math.max(1, level.current - Math.max(0, Math.clamped(0, leftover, leftover - statPoints.total ?? 0)))`.
The operator `??` binds weaker than `-`, and a difference of numbers is never
nullish, so the third argument of `Math.clamped` is `leftover - statPoints.total`. -/
def actualLevel (levelCurrent leftover statPointsTotal : ℤ) : ℤ :=
  max 1 (levelCurrent - max 0 (clamped 0 leftover (leftover - statPointsTotal)))

/-! ## Contest stats -/

/-- The five contest stats, in the order forced at lines 165-171 of `document.js`. -/
inductive ContestStat where
  | cool
  | tough
  | beauty
  | smart
  | cute
  deriving DecidableEq, Repr

/-- The six combat stats; `defense` is the stat stored under the key `def`. -/
inductive CombatStat where
  | hp
  | atk
  | defense
  | spatk
  | spdef
  | spd
  deriving DecidableEq, Repr

/-- The `switch (stat)` of lines 174-180 of `document.js`. -/
def combatStat : ContestStat → CombatStat
  | ContestStat.cool => CombatStat.atk
  | ContestStat.tough => CombatStat.defense
  | ContestStat.beauty => CombatStat.spatk
  | ContestStat.smart => CombatStat.spdef
  | ContestStat.cute => CombatStat.spd

/-- The fields of one contest stat after lines 182-186 of `document.js`. -/
structure ContestEntry where
  value : ℤ
  mod : ℤ
  total : ℤ
  dice : ℤ
  deriving DecidableEq, Repr

/-- Lines 182-186 of `document.js` for one contest stat: `combatTotal` is
`system.stats[combatStat].total`, `mod` the stored contest modifier (`none` when
missing, which `??=` replaces by 0) and `voltage` is `system.contests.voltage.value`.
The division by 10 is a double-precision operation. -/
def contestEntry (combatTotal : ℤ) (mod : Option ℤ) (voltage : ℤ) : ContestEntry :=
  let value := min (mathFloor (fl ((combatTotal : ℚ) / 10))) 3
  let mod := mod.getD 0
  let total := min (value + mod) 3
  { value := value, mod := mod, total := total, dice := total + voltage }

/-- The loop of lines 172-187 of `document.js`: the entry of one contest stat,
`stats` giving the total of every combat stat. -/
def contestStats (stats : CombatStat → ℤ) (mods : ContestStat → Option ℤ) (voltage : ℤ)
    (stat : ContestStat) : ContestEntry :=
  contestEntry (stats (combatStat stat)) (mods stat) voltage

/-! ## The modifier pass -/

/-- What a property of a modifier object holds: nothing (`undefined`, the property
is missing), `null`, or a number. -/
inductive Property where
  | undefined
  | null
  | number (n : ℤ)
  deriving DecidableEq, Repr

/-- The expression `p ?? 0` on a property: the number it holds, and 0 for
`undefined` and for `null`. -/
def Property.orZero : Property → ℤ
  | Property.undefined => 0
  | Property.null => 0
  | Property.number n => n

/-- A modifier object with the properties `value`, `mod` and `total`. -/
structure Modifier where
  value : Property
  mod : Property
  total : Property
  deriving DecidableEq, Repr

/-- An entry of `system.modifiers` before the pass: a flat group is one modifier
object, a nested group holds one modifier object per sub-key (none of them named
`value`, `mod` or `total`). -/
inductive ModifierGroup where
  | flat (modifier : Modifier)
  | nested (subs : List (String × Modifier))
  deriving DecidableEq, Repr

/-- An entry of `system.modifiers` after the pass: a nested group can have
received a property `total` of its own. -/
inductive PreparedGroup where
  | flat (modifier : Modifier)
  | nested (subs : List (String × Modifier)) (total : Option ℤ)
  deriving DecidableEq, Repr

/-- An entry that the pass does not touch. -/
def ModifierGroup.unchanged : ModifierGroup → PreparedGroup
  | ModifierGroup.flat modifier => PreparedGroup.flat modifier
  | ModifierGroup.nested subs => PreparedGroup.nested subs none

/-- The keys skipped at line 65 of `document.js`. -/
def skippedKeys : List String :=
  ["hardened", "flinch_count", "immuneToEffectDamage", "typeOverwrite", "capabilities"]

/-- The assignment `x["total"] = (x["value"] ?? 0) + (x["mod"] ?? 0)` of lines 70
and 76 of `document.js`. -/
def Modifier.withTotal (m : Modifier) : Modifier :=
  { m with total := Property.number (m.value.orZero + m.mod.orZero) }

/-- The test `mod[Object.keys(mod)[0]]?.value !== undefined` of line 68 of
`document.js`: the first property of a flat group holds a number, `null` or
nothing, none of which has a `value`; the first property of a nested group is its
first sub-key, whose `value` passes the test unless it is `undefined` (a `null`
passes). -/
def hasSubkeys : ModifierGroup → Bool
  | ModifierGroup.flat _ => false
  | ModifierGroup.nested [] => false
  | ModifierGroup.nested ((_, first) :: _) =>
    match first.value with
    | Property.undefined => false
    | Property.null => true
    | Property.number _ => true

/-- The body of the loop of lines 63-77 of `document.js` for a key that is not
skipped. A nested group that fails the test of line 68 takes the flat branch: it
has no property `value` or `mod`, so it receives a `total` of 0 of its own and
its sub-keys are not visited. -/
def prepareModifier (group : ModifierGroup) : PreparedGroup :=
  match group with
  | ModifierGroup.flat modifier => PreparedGroup.flat modifier.withTotal
  | ModifierGroup.nested subs =>
    if hasSubkeys (ModifierGroup.nested subs) then
      PreparedGroup.nested (subs.map (fun entry => (entry.1, entry.2.withTotal))) none
    else
      PreparedGroup.nested subs (some 0)

/-- The loop of lines 63-77 of `document.js` over `Object.entries(system.modifiers)`. -/
def prepareModifierTotals (modifiers : List (String × ModifierGroup)) :
    List (String × PreparedGroup) :=
  modifiers.map (fun entry =>
    if skippedKeys.contains entry.1 then (entry.1, entry.2.unchanged)
    else (entry.1, prepareModifier entry.2))

/-! ## Sample inputs -/

/-- A host whose inherited methods leave the check unchanged and whose die shows
20. -/
def sampleHost : Host Nat :=
  { selfContext := fun c =>
      { uuid := c.actor.uuid, options := c.options, distance := none,
        evasion := c.actor.evasion }
    superPrepareContexts := fun c => c
    superPrepareModifiers := fun c => c
    superPrepareStatistic := fun c => c
    beforeRoll := fun c => c
    superExecute := fun _ _ => some 20
    afterRoll := fun c => c }

/-- A ranged Physical attack of range "6, 1 Target" with one target at distance
`distance`, the source carrying the condition options `conditions`. -/
def sampleCheck (distance : Int) (conditions : List String) : Check :=
  { actor := { uuid := "source", critRangeTotal := none, acBonusTotal := 1,
               evasion := ⟨0, 0, 0⟩ }
    item := { name := "Ember", category := some "Physical", acNumber := some 2,
              range := "6, 1 Target" }
    selectors := ["ranged-attack", "status-attack"]
    options := []
    conditionOptions := conditions
    contexts := [{ uuid := "target", options := [], distance := some distance,
                   evasion := ⟨1, 2, 3⟩ }]
    modifiers := [{ slug := "flat", label := "Flat", modifier := ModifierValue.fin 1 }] }

/-- Both automation settings switched on. -/
def sampleSettings : Settings :=
  { failAttackIfOutOfRange := true, failAttackIfNoTarget := true }

/-- The check `c` with a second, vulnerable target of evasions 7, 8 and 9 added. -/
def Check.withVulnerableTarget (c : Check) : Check :=
  { c with contexts := c.contexts ++
      [{ uuid := "target2", options := ["target:condition:vulnerable"], distance := some 1,
         evasion := ⟨7, 8, 9⟩ }] }

/-- A melee attack of the given category against one target (neither vulnerable
nor stuck) with the given evasion block. -/
def sampleAttack (category : String) (evasion : Evasion) : Check :=
  { actor := { uuid := "source", critRangeTotal := none, acBonusTotal := 0,
               evasion := ⟨0, 0, 0⟩ }
    item := { name := "Strike", category := some category, acNumber := some 2,
              range := "Melee, 1 Target" }
    selectors := []
    options := []
    conditionOptions := []
    contexts := [{ uuid := "target", options := [], distance := some 1,
                   evasion := evasion }]
    modifiers := [] }


/-! ## Double-precision rounding -/

theorem binade_spec (q : ℚ) (hq : q ≠ 0) :
    (2 : ℚ) ^ binade q ≤ |q| ∧ |q| < (2 : ℚ) ^ (binade q + 1) := by
  have hpos : 0 < |q| := abs_pos.mpr hq
  constructor
  · simpa [binade] using Int.zpow_log_le_self (b := 2) (r := |q|) (by norm_num) hpos
  · simpa [binade] using Int.lt_zpow_succ_log_self (b := 2) (by norm_num) |q|

theorem binade_eq (q : ℚ) (e : ℤ) (h1 : (2 : ℚ) ^ e ≤ |q|) (h2 : |q| < (2 : ℚ) ^ (e + 1)) :
    binade q = e := by
  have hpos : 0 < |q| := lt_of_lt_of_le (by positivity) h1
  have ha : e ≤ binade q := by
    have := (Int.zpow_le_iff_le_log (b := 2) (by norm_num) hpos (x := e)).mp (by simpa using h1)
    simpa [binade] using this
  have hb : binade q < e + 1 := by
    have := (Int.lt_zpow_iff_log_lt (b := 2) (by norm_num) hpos (x := e + 1)).mp (by simpa using h2)
    simpa [binade] using this
  omega

theorem roundHalfEven_le (q : ℚ) : (roundHalfEven q : ℚ) ≤ q + 1 / 2 := by
  unfold roundHalfEven
  have h1 := Int.floor_le q
  have h2 := Int.lt_floor_add_one q
  split_ifs with ha hb hc
  · linarith
  · push_cast; linarith
  · linarith
  · push_cast; linarith

theorem le_roundHalfEven (q : ℚ) : q - 1 / 2 ≤ (roundHalfEven q : ℚ) := by
  unfold roundHalfEven
  have h1 := Int.floor_le q
  have h2 := Int.lt_floor_add_one q
  split_ifs with ha hb hc
  · linarith
  · push_cast; linarith
  · linarith
  · push_cast; linarith

theorem roundHalfEven_intCast (n : ℤ) : roundHalfEven (n : ℚ) = n := by
  unfold roundHalfEven
  simp

theorem roundHalfEven_mono {x y : ℚ} (h : x ≤ y) : roundHalfEven x ≤ roundHalfEven y := by
  have hf : ⌊x⌋ ≤ ⌊y⌋ := Int.floor_mono h
  have hx1 := Int.floor_le x
  have hx2 := Int.lt_floor_add_one x
  have hy1 := Int.floor_le y
  have hy2 := Int.lt_floor_add_one y
  rcases lt_or_eq_of_le hf with hlt | heq
  · have a : roundHalfEven x ≤ ⌊x⌋ + 1 := by
      unfold roundHalfEven; split_ifs <;> omega
    have b : ⌊y⌋ ≤ roundHalfEven y := by
      unfold roundHalfEven; split_ifs <;> omega
    omega
  · unfold roundHalfEven
    rw [heq]
    rw [heq] at hx1 hx2
    split_ifs <;> first | omega | (exfalso; linarith)

theorem fl_zero : fl 0 = 0 := by simp [fl]

theorem ulp_pos (q : ℚ) : (0 : ℚ) < 2 ^ (binade q - 52) := by positivity

/-- The rounding error is at most half a unit in the last place. -/
theorem abs_fl_sub_le (q : ℚ) : |fl q - q| ≤ 2 ^ (binade q - 52) / 2 := by
  by_cases hq : q = 0
  · subst hq
    simp only [fl_zero, sub_self, abs_zero]
    positivity
  · have hu := ulp_pos q
    simp only [fl, hq, ↓reduceIte]
    have h1 := roundHalfEven_le (q / 2 ^ (binade q - 52))
    have h2 := le_roundHalfEven (q / 2 ^ (binade q - 52))
    have hq' : q = q / 2 ^ (binade q - 52) * 2 ^ (binade q - 52) := by
      field_simp
    rw [abs_le]
    constructor
    · have := mul_le_mul_of_nonneg_right h2 hu.le
      rw [sub_mul, ← hq'] at this
      linarith
    · have := mul_le_mul_of_nonneg_right h1 hu.le
      rw [add_mul, ← hq'] at this
      linarith

/-- The relative rounding error is at most `2 ^ (-53)`. -/
theorem abs_fl_sub_le_mul (q : ℚ) : |fl q - q| ≤ |q| / 2 ^ 53 := by
  by_cases hq : q = 0
  · subst hq
    simp [fl_zero]
  · have h := abs_fl_sub_le q
    have hb := (binade_spec q hq).1
    have e : (2 : ℚ) ^ (binade q - 52) / 2 = 2 ^ binade q / 2 ^ 53 := by
      rw [zpow_sub₀ (by norm_num : (2 : ℚ) ≠ 0)]
      norm_num
      ring
    rw [e] at h
    refine le_trans h ?_
    exact div_le_div_of_nonneg_right hb (by positivity)

theorem two_zpow_eq_mul_ulp (e : ℤ) : (2 : ℚ) ^ e = 2 ^ (52 : ℕ) * 2 ^ (e - 52) := by
  rw [← zpow_natCast, ← zpow_add₀ (by norm_num : (2 : ℚ) ≠ 0)]
  congr 1
  push_cast
  ring

theorem two_zpow_succ_eq_mul_ulp (e : ℤ) : (2 : ℚ) ^ (e + 1) = 2 ^ (53 : ℕ) * 2 ^ (e - 52) := by
  rw [← zpow_natCast, ← zpow_add₀ (by norm_num : (2 : ℚ) ≠ 0)]
  congr 1
  push_cast
  ring

/-- A positive number rounds into the closure of its binade. -/
theorem fl_pos_bounds (q : ℚ) (hq : 0 < q) :
    (2 : ℚ) ^ binade q ≤ fl q ∧ fl q ≤ (2 : ℚ) ^ (binade q + 1) := by
  have hu := ulp_pos q
  obtain ⟨h1, h2⟩ := binade_spec q hq.ne'
  rw [abs_of_pos hq] at h1 h2
  have e1 := two_zpow_eq_mul_ulp (binade q)
  have e2 := two_zpow_succ_eq_mul_ulp (binade q)
  norm_num at e1 e2
  simp only [fl, hq.ne', ↓reduceIte]
  constructor
  · have hle : ((4503599627370496 : ℤ) : ℚ) ≤ q / 2 ^ (binade q - 52) := by
      rw [le_div_iff₀ hu]
      push_cast
      linarith
    have := roundHalfEven_mono hle
    rw [roundHalfEven_intCast] at this
    have hc : (4503599627370496 : ℚ) ≤ (roundHalfEven (q / 2 ^ (binade q - 52)) : ℚ) := by
      exact_mod_cast this
    have := mul_le_mul_of_nonneg_right hc hu.le
    linarith
  · have hle : q / 2 ^ (binade q - 52) ≤ ((9007199254740992 : ℤ) : ℚ) := by
      rw [div_le_iff₀ hu]
      push_cast
      linarith
    have := roundHalfEven_mono hle
    rw [roundHalfEven_intCast] at this
    have hc : (roundHalfEven (q / 2 ^ (binade q - 52)) : ℚ) ≤ (9007199254740992 : ℚ) := by
      exact_mod_cast this
    have := mul_le_mul_of_nonneg_right hc hu.le
    linarith

/-- A negative number rounds into the closure of its binade. -/
theorem fl_neg_bounds (q : ℚ) (hq : q < 0) :
    -(2 : ℚ) ^ (binade q + 1) ≤ fl q ∧ fl q ≤ -(2 : ℚ) ^ binade q := by
  have hu := ulp_pos q
  obtain ⟨h1, h2⟩ := binade_spec q hq.ne
  rw [abs_of_neg hq] at h1 h2
  have e1 := two_zpow_eq_mul_ulp (binade q)
  have e2 := two_zpow_succ_eq_mul_ulp (binade q)
  norm_num at e1 e2
  simp only [fl, hq.ne, ↓reduceIte]
  constructor
  · have hle : ((-9007199254740992 : ℤ) : ℚ) ≤ q / 2 ^ (binade q - 52) := by
      rw [le_div_iff₀ hu]
      push_cast
      linarith
    have := roundHalfEven_mono hle
    rw [roundHalfEven_intCast] at this
    have hc : (-9007199254740992 : ℚ) ≤ (roundHalfEven (q / 2 ^ (binade q - 52)) : ℚ) := by
      exact_mod_cast this
    have := mul_le_mul_of_nonneg_right hc hu.le
    linarith
  · have hle : q / 2 ^ (binade q - 52) ≤ ((-4503599627370496 : ℤ) : ℚ) := by
      rw [div_le_iff₀ hu]
      push_cast
      linarith
    have := roundHalfEven_mono hle
    rw [roundHalfEven_intCast] at this
    have hc : (roundHalfEven (q / 2 ^ (binade q - 52)) : ℚ) ≤ (-4503599627370496 : ℚ) := by
      exact_mod_cast this
    have := mul_le_mul_of_nonneg_right hc hu.le
    linarith

theorem fl_nonneg (q : ℚ) (hq : 0 ≤ q) : 0 ≤ fl q := by
  rcases eq_or_lt_of_le hq with h | h
  · rw [← h, fl_zero]
  · exact le_trans (by positivity) (fl_pos_bounds q h).1

theorem fl_nonpos (q : ℚ) (hq : q ≤ 0) : fl q ≤ 0 := by
  rcases eq_or_lt_of_le hq with h | h
  · rw [h, fl_zero]
  · refine le_trans (fl_neg_bounds q h).2 ?_
    have : (0 : ℚ) < 2 ^ binade q := by positivity
    linarith

theorem fl_mono_same_binade (x y : ℚ) (hx : x ≠ 0) (hy : y ≠ 0) (h : x ≤ y)
    (he : binade x = binade y) : fl x ≤ fl y := by
  have hu := ulp_pos y
  simp only [fl, hx, hy, ↓reduceIte, he]
  have hle : x / 2 ^ (binade y - 52) ≤ y / 2 ^ (binade y - 52) :=
    div_le_div_of_nonneg_right h hu.le
  have := roundHalfEven_mono hle
  have hc : (roundHalfEven (x / 2 ^ (binade y - 52)) : ℚ)
      ≤ (roundHalfEven (y / 2 ^ (binade y - 52)) : ℚ) := by exact_mod_cast this
  exact mul_le_mul_of_nonneg_right hc hu.le

/-- Rounding to the nearest double is monotone. -/
theorem fl_mono {x y : ℚ} (h : x ≤ y) : fl x ≤ fl y := by
  rcases lt_trichotomy x 0 with hx | hx | hx
  · rcases lt_or_le y 0 with hy | hy
    · have hle : binade y ≤ binade x := by
        unfold binade
        apply Int.log_mono_right (abs_pos.mpr hy.ne)
        rw [abs_of_neg hx, abs_of_neg hy]
        linarith
      rcases eq_or_lt_of_le hle with he | hlt
      · exact fl_mono_same_binade x y hx.ne hy.ne h he.symm
      · have h1 := (fl_neg_bounds x hx).2
        have h2 := (fl_neg_bounds y hy).1
        have h3 : (2 : ℚ) ^ (binade y + 1) ≤ 2 ^ binade x :=
          zpow_le_zpow_right₀ (by norm_num) (by omega)
        linarith
    · exact le_trans (fl_nonpos x hx.le) (fl_nonneg y hy)
  · subst hx
    rw [fl_zero]
    exact fl_nonneg y h
  · have hy : 0 < y := lt_of_lt_of_le hx h
    have hle : binade x ≤ binade y := by
      unfold binade
      apply Int.log_mono_right (abs_pos.mpr hx.ne')
      rw [abs_of_pos hx, abs_of_pos hy]
      exact h
    rcases eq_or_lt_of_le hle with he | hlt
    · exact fl_mono_same_binade x y hx.ne' hy.ne' h he
    · have h1 := (fl_pos_bounds x hx).2
      have h2 := (fl_pos_bounds y hy).1
      have h3 : (2 : ℚ) ^ (binade x + 1) ≤ 2 ^ binade y :=
        zpow_le_zpow_right₀ (by norm_num) (by omega)
      linarith

/-- Evaluation of `fl` once the binade `e` of `q` and the floor `n` of the scaled
significand are known. -/
theorem fl_eval (q : ℚ) (e n : ℤ) (h1 : (2 : ℚ) ^ e ≤ |q|) (h2 : |q| < (2 : ℚ) ^ (e + 1))
    (h3 : (n : ℚ) ≤ q / 2 ^ (e - 52)) (h4 : q / 2 ^ (e - 52) < n + 1) :
    fl q = ((if q / 2 ^ (e - 52) - n < 1 / 2 then n
      else if 1 / 2 < q / 2 ^ (e - 52) - n then n + 1
      else if n % 2 = 0 then n else n + 1 : ℤ) : ℚ) * 2 ^ (e - 52) := by
  have hq : q ≠ 0 := by
    intro h
    rw [h, abs_zero] at h1
    have : (0 : ℚ) < 2 ^ e := by positivity
    linarith
  have he := binade_eq q e h1 h2
  have hn : ⌊q / 2 ^ (e - 52)⌋ = n := Int.floor_eq_iff.mpr ⟨h3, h4⟩
  simp only [fl, hq, ↓reduceIte, he, roundHalfEven, hn]

theorem trunc_mono {x y : ℚ} (h : x ≤ y) : trunc x ≤ trunc y := by
  unfold trunc
  split_ifs with hx hy hy
  · exact Int.floor_mono h
  · exact absurd (le_trans hx h) hy
  · have h1 : ⌈x⌉ ≤ 0 := Int.ceil_le.mpr (by push_cast; linarith)
    have h2 : 0 ≤ ⌊y⌋ := Int.le_floor.mpr (by push_cast; linarith)
    omega
  · exact Int.ceil_mono h

theorem trunc_le_of_le_intCast (x : ℚ) (n : ℤ) (h : x ≤ n) : trunc x ≤ n := by
  unfold trunc
  have h1 : ⌈x⌉ ≤ n := Int.ceil_le.mpr h
  have h2 : ⌊x⌋ ≤ ⌈x⌉ := Int.floor_le_ceil x
  split_ifs <;> omega

theorem abs_fl_le (q : ℚ) : |fl q| ≤ |q| + |q| / 2 ^ 53 := by
  have h := abs_fl_sub_le_mul q
  have := abs_sub_abs_le_abs_sub (fl q) q
  linarith

/-- The double-precision product of `prepareDerivedData` is within `1 / 10000` of
the exact product when the total and the reduced injuries are at most a million. -/
theorem abs_product_sub_le (t r : ℤ) (ht : |t| ≤ 10 ^ 6) (hr0 : 0 ≤ r) (hr : r ≤ 10 ^ 6) :
    |fl ((t : ℚ) * fl (1 - fl ((r : ℚ) / 10))) - (t : ℚ) * (1 - (r : ℚ) / 10)|
      ≤ 1 / 10000 := by
  have htq : |(t : ℚ)| ≤ 10 ^ 6 := by exact_mod_cast ht
  have hr0q : (0 : ℚ) ≤ r := by exact_mod_cast hr0
  have hrq : (r : ℚ) ≤ 10 ^ 6 := by exact_mod_cast hr
  have hx1 : |(r : ℚ) / 10| ≤ 10 ^ 5 := by
    rw [abs_of_nonneg (by positivity)]
    linarith
  have ha := abs_fl_sub_le_mul ((r : ℚ) / 10)
  have ha' := abs_fl_le ((r : ℚ) / 10)
  have hpow : (0 : ℚ) < 2 ^ 53 := by positivity
  have hdiv1 : |(r : ℚ) / 10| / 2 ^ 53 ≤ 10 ^ 5 / 2 ^ 53 :=
    div_le_div_of_nonneg_right hx1 hpow.le
  have hx2 : |1 - fl ((r : ℚ) / 10)| ≤ 100002 := by
    have := abs_sub (1 : ℚ) (fl ((r : ℚ) / 10))
    rw [abs_one] at this
    have : (10 : ℚ) ^ 5 / 2 ^ 53 ≤ 1 := by norm_num
    linarith
  have hb := abs_fl_sub_le_mul (1 - fl ((r : ℚ) / 10))
  have hb' := abs_fl_le (1 - fl ((r : ℚ) / 10))
  have hdiv2 : |1 - fl ((r : ℚ) / 10)| / 2 ^ 53 ≤ 100002 / 2 ^ 53 :=
    div_le_div_of_nonneg_right hx2 hpow.le
  have hbabs : |fl (1 - fl ((r : ℚ) / 10))| ≤ 100003 := by
    have : (100002 : ℚ) / 2 ^ 53 ≤ 1 := by norm_num
    linarith
  have hx3 : |(t : ℚ) * fl (1 - fl ((r : ℚ) / 10))| ≤ 10 ^ 6 * 100003 := by
    rw [abs_mul]
    exact mul_le_mul htq hbabs (abs_nonneg _) (by positivity)
  have hc := abs_fl_sub_le_mul ((t : ℚ) * fl (1 - fl ((r : ℚ) / 10)))
  have hdiv3 : |(t : ℚ) * fl (1 - fl ((r : ℚ) / 10))| / 2 ^ 53 ≤ 10 ^ 6 * 100003 / 2 ^ 53 :=
    div_le_div_of_nonneg_right hx3 hpow.le
  have hsplit : fl ((t : ℚ) * fl (1 - fl ((r : ℚ) / 10))) - (t : ℚ) * (1 - (r : ℚ) / 10)
      = (fl ((t : ℚ) * fl (1 - fl ((r : ℚ) / 10))) - (t : ℚ) * fl (1 - fl ((r : ℚ) / 10)))
        + ((t : ℚ) * (fl (1 - fl ((r : ℚ) / 10)) - (1 - fl ((r : ℚ) / 10)))
          - (t : ℚ) * (fl ((r : ℚ) / 10) - (r : ℚ) / 10)) := by ring
  have h2 : |(t : ℚ) * (fl (1 - fl ((r : ℚ) / 10)) - (1 - fl ((r : ℚ) / 10)))|
      ≤ 10 ^ 6 * (100002 / 2 ^ 53) := by
    rw [abs_mul]
    exact mul_le_mul htq (le_trans hb hdiv2) (abs_nonneg _) (by positivity)
  have h3 : |(t : ℚ) * (fl ((r : ℚ) / 10) - (r : ℚ) / 10)| ≤ 10 ^ 6 * (10 ^ 5 / 2 ^ 53) := by
    rw [abs_mul]
    exact mul_le_mul htq (le_trans ha hdiv1) (abs_nonneg _) (by positivity)
  rw [hsplit]
  refine le_trans (abs_add _ _) ?_
  have h4 := abs_sub ((t : ℚ) * (fl (1 - fl ((r : ℚ) / 10)) - (1 - fl ((r : ℚ) / 10))))
    ((t : ℚ) * (fl ((r : ℚ) / 10) - (r : ℚ) / 10))
  have hnum : (10 : ℚ) ^ 6 * 100003 / 2 ^ 53 + (10 ^ 6 * (100002 / 2 ^ 53)
      + 10 ^ 6 * (10 ^ 5 / 2 ^ 53)) ≤ 1 / 10000 := by norm_num
  linarith

/-- Truncation is stable under a perturbation smaller than the distance of a
non-integral number of tenths to the integers. -/
theorem trunc_eq_of_close (x : ℚ) (k : ℤ) (c : ℚ) (hx : x = (k : ℚ) / 10)
    (hk : ¬ (10 : ℤ) ∣ k) (hc : |c - x| < 1 / 10) : trunc c = trunc x := by
  obtain ⟨h1, h2⟩ := abs_lt.mp hc
  have hmod : 1 ≤ k % 10 ∧ k % 10 ≤ 9 := by
    have := Int.emod_nonneg k (by norm_num : (10 : ℤ) ≠ 0)
    have := Int.emod_lt_of_pos k (by norm_num : (0 : ℤ) < 10)
    have : k % 10 ≠ 0 := fun h => hk (Int.dvd_of_emod_eq_zero h)
    omega
  have hk' : k = 10 * (k / 10) + k % 10 := (Int.ediv_add_emod k 10).symm
  have hkq : (k : ℚ) = 10 * ((k / 10 : ℤ) : ℚ) + ((k % 10 : ℤ) : ℚ) := by exact_mod_cast hk'
  have hm1 : (1 : ℚ) ≤ ((k % 10 : ℤ) : ℚ) := by exact_mod_cast hmod.1
  have hm2 : ((k % 10 : ℤ) : ℚ) ≤ 9 := by exact_mod_cast hmod.2
  have hxl : ((k / 10 : ℤ) : ℚ) + 1 / 10 ≤ x := by rw [hx, hkq]; linarith
  have hxu : x ≤ ((k / 10 : ℤ) : ℚ) + 9 / 10 := by rw [hx, hkq]; linarith
  unfold trunc
  by_cases hx0 : 0 ≤ x
  · have hn : (0 : ℤ) ≤ k / 10 := by
      by_contra hneg
      have : k / 10 ≤ -1 := by omega
      have : ((k / 10 : ℤ) : ℚ) ≤ -1 := by exact_mod_cast this
      linarith
    have hnq : (0 : ℚ) ≤ ((k / 10 : ℤ) : ℚ) := by exact_mod_cast hn
    have hc0 : 0 ≤ c := by linarith
    rw [if_pos hc0, if_pos hx0]
    rw [Int.floor_eq_iff.mpr (⟨by linarith, by linarith⟩ :
          ((k / 10 : ℤ) : ℚ) ≤ c ∧ c < ((k / 10 : ℤ) : ℚ) + 1),
      Int.floor_eq_iff.mpr (⟨by linarith, by linarith⟩ :
          ((k / 10 : ℤ) : ℚ) ≤ x ∧ x < ((k / 10 : ℤ) : ℚ) + 1)]
  · have hx0' : x < 0 := lt_of_not_le hx0
    have hn : k / 10 ≤ -1 := by
      by_contra hneg
      have : 0 ≤ k / 10 := by omega
      have : (0 : ℚ) ≤ ((k / 10 : ℤ) : ℚ) := by exact_mod_cast this
      linarith
    have hnq : ((k / 10 : ℤ) : ℚ) ≤ -1 := by exact_mod_cast hn
    have hc0 : ¬ 0 ≤ c := by
      intro h
      linarith
    rw [if_neg hc0, if_neg hx0]
    rw [Int.ceil_eq_iff.mpr (⟨by push_cast; linarith, by push_cast; linarith⟩ :
          ((k / 10 + 1 : ℤ) : ℚ) - 1 < c ∧ c ≤ ((k / 10 + 1 : ℤ) : ℚ)),
      Int.ceil_eq_iff.mpr (⟨by push_cast; linarith, by push_cast; linarith⟩ :
          ((k / 10 + 1 : ℤ) : ℚ) - 1 < x ∧ x ≤ ((k / 10 + 1 : ℤ) : ℚ))]

/-- A number `m * 2 ^ s` whose significand `m` fits in 53 bits is a double. -/
theorem fl_dyadic (m s : ℤ) (hm : |m| < 2 ^ 53) : fl ((m : ℚ) * 2 ^ s) = (m : ℚ) * 2 ^ s := by
  by_cases h0 : m = 0
  · subst h0
    simp [fl_zero]
  · have hmq : (m : ℚ) ≠ 0 := by exact_mod_cast h0
    have hs : (0 : ℚ) < 2 ^ s := by positivity
    obtain ⟨h1, h2⟩ := binade_spec (m : ℚ) hmq
    have habs : |(m : ℚ)| < 2 ^ (53 : ℤ) := by
      have : ((|m| : ℤ) : ℚ) < ((2 ^ 53 : ℤ) : ℚ) := by exact_mod_cast hm
      rw [Int.cast_abs] at this
      norm_num at this ⊢
      exact this
    have hone : (1 : ℚ) ≤ |(m : ℚ)| := by
      have : (1 : ℤ) ≤ |m| := Int.one_le_abs h0
      have : ((1 : ℤ) : ℚ) ≤ ((|m| : ℤ) : ℚ) := by exact_mod_cast this
      rw [Int.cast_abs] at this
      simpa using this
    have he1 : binade (m : ℚ) < 53 := by
      have := lt_of_le_of_lt h1 habs
      exact (zpow_lt_zpow_iff_right₀ (by norm_num : (1 : ℚ) < 2)).mp this
    have he0 : 0 ≤ binade (m : ℚ) := by
      have : (2 : ℚ) ^ (0 : ℤ) < 2 ^ (binade (m : ℚ) + 1) := by
        rw [zpow_zero]
        exact lt_of_le_of_lt hone h2
      have := (zpow_lt_zpow_iff_right₀ (by norm_num : (1 : ℚ) < 2)).mp this
      omega
    have hbin : binade ((m : ℚ) * 2 ^ s) = binade (m : ℚ) + s := by
      apply binade_eq
      · rw [abs_mul, abs_of_pos hs, zpow_add₀ (by norm_num : (2 : ℚ) ≠ 0)]
        exact mul_le_mul_of_nonneg_right h1 hs.le
      · rw [abs_mul, abs_of_pos hs, show binade (m : ℚ) + s + 1 = (binade (m : ℚ) + 1) + s by ring,
          zpow_add₀ (by norm_num : (2 : ℚ) ≠ 0)]
        exact mul_lt_mul_of_pos_right h2 hs
    have hne : (m : ℚ) * 2 ^ s ≠ 0 := mul_ne_zero hmq hs.ne'
    obtain ⟨k, hk⟩ : ∃ k : ℕ, (k : ℤ) = 52 - binade (m : ℚ) := ⟨(52 - binade (m : ℚ)).toNat, by omega⟩
    have hscaled : (m : ℚ) * 2 ^ s / 2 ^ (binade (m : ℚ) + s - 52) = ((m * 2 ^ k : ℤ) : ℚ) := by
      have hexp : binade (m : ℚ) + s - 52 = s - (k : ℤ) := by omega
      rw [hexp, zpow_sub₀ (by norm_num : (2 : ℚ) ≠ 0), zpow_natCast]
      push_cast
      field_simp
      ring
    simp only [fl, hne, ↓reduceIte, hbin, hscaled, roundHalfEven_intCast]
    have hexp : binade (m : ℚ) + s - 52 = s - (k : ℤ) := by omega
    rw [hexp, zpow_sub₀ (by norm_num : (2 : ℚ) ≠ 0), zpow_natCast]
    push_cast
    field_simp
    ring

theorem fl_one : fl 1 = 1 := by
  have := fl_dyadic 1 0 (by norm_num)
  simpa using this

/-- When the reduced injuries are a multiple of 5 every operation of the product is
exact. -/
theorem product_exact_of_five_dvd (t r : ℤ) (ht : |t| ≤ 10 ^ 6) (hr0 : 0 ≤ r)
    (hr : r ≤ 10 ^ 6) (h5 : (5 : ℤ) ∣ r) :
    fl ((t : ℚ) * fl (1 - fl ((r : ℚ) / 10))) = (t : ℚ) * (1 - (r : ℚ) / 10) := by
  obtain ⟨k, rfl⟩ := h5
  have hk0 : 0 ≤ k := by omega
  have hk1 : k ≤ 200000 := by omega
  have e1 : (((5 * k : ℤ) : ℚ)) / 10 = (k : ℚ) * 2 ^ (-1 : ℤ) := by
    push_cast
    rw [zpow_neg_one]
    ring
  have e2 : 1 - (k : ℚ) * 2 ^ (-1 : ℤ) = ((2 - k : ℤ) : ℚ) * 2 ^ (-1 : ℤ) := by
    push_cast
    rw [zpow_neg_one]
    ring
  have e3 : (t : ℚ) * (((2 - k : ℤ) : ℚ) * 2 ^ (-1 : ℤ))
      = ((t * (2 - k) : ℤ) : ℚ) * 2 ^ (-1 : ℤ) := by
    push_cast
    ring
  have hprod : |t * (2 - k)| < 2 ^ 53 := by
    rw [abs_mul]
    have h2k : |2 - k| ≤ 200000 := by
      rw [abs_le]
      constructor <;> omega
    calc |t| * |2 - k| ≤ 10 ^ 6 * 200000 :=
          mul_le_mul ht h2k (abs_nonneg _) (by norm_num)
      _ < 2 ^ 53 := by norm_num
  rw [e1, fl_dyadic k (-1) (by rw [abs_of_nonneg hk0]; omega), e2,
    fl_dyadic (2 - k) (-1) (by rw [abs_lt]; constructor <;> omega), e3,
    fl_dyadic _ (-1) hprod]

/-- The health maximum on the inputs where the double-precision product truncates
like the exact one. -/
theorem healthMax_eq_trunc_exact (total injuries : ℤ) (hardened : Bool)
    (htotal : |total| ≤ 10 ^ 6) (hinj : injuries ≤ 10 ^ 6) (hpos : injuries > 0)
    (hexact : (5 : ℤ) ∣ reducedInjuries injuries hardened
      ∨ ¬ (10 : ℤ) ∣ total * reducedInjuries injuries hardened) :
    healthMax total injuries hardened
      = trunc ((total : ℚ) * (1 - (reducedInjuries injuries hardened : ℚ) / 10)) := by
  have hr0 : 0 ≤ reducedInjuries injuries hardened := by
    unfold reducedInjuries
    split_ifs
    · exact le_min (by omega) (by norm_num)
    · omega
  have hr : reducedInjuries injuries hardened ≤ 10 ^ 6 := by
    unfold reducedInjuries
    split_ifs
    · exact le_trans (min_le_left _ _) hinj
    · exact hinj
  simp only [healthMax, hpos, ↓reduceIte]
  rcases hexact with h5 | h10
  · rw [product_exact_of_five_dvd total _ htotal hr0 hr h5]
  · apply trunc_eq_of_close _ (total * (10 - reducedInjuries injuries hardened))
    · push_cast
      ring
    · intro hdvd
      apply h10
      have : total * reducedInjuries injuries hardened
          = 10 * total - total * (10 - reducedInjuries injuries hardened) := by ring
      rw [this]
      exact dvd_sub (dvd_mul_right 10 total) hdvd
    · exact lt_of_le_of_lt (abs_product_sub_le total _ htotal hr0 hr) (by norm_num)

theorem trunc_eq_floor_of_nonneg (q : ℚ) (h : 0 ≤ q) : trunc q = ⌊q⌋ := by
  simp [trunc, h]

theorem reducedInjuries_mono (hardened : Bool) {i j : ℤ} (h : i ≤ j) :
    reducedInjuries i hardened ≤ reducedInjuries j hardened := by
  unfold reducedInjuries
  split_ifs
  · exact min_le_min_right 5 h
  · exact h

theorem one_le_reducedInjuries (hardened : Bool) {i : ℤ} (h : 0 < i) :
    1 ≤ reducedInjuries i hardened := by
  unfold reducedInjuries
  split_ifs
  · exact le_min (by omega) (by norm_num)
  · omega

/-- With at least one injury the rounded product does not exceed a non-negative
total. -/
theorem fl_product_le_total (t r : ℤ) (ht : 0 ≤ t) (hr : 1 ≤ r) :
    fl ((t : ℚ) * fl (1 - fl ((r : ℚ) / 10))) ≤ t := by
  have htq : (0 : ℚ) ≤ t := by exact_mod_cast ht
  have hrq : (1 : ℚ) ≤ r := by exact_mod_cast hr
  have ha : (9 : ℚ) / 100 ≤ fl ((r : ℚ) / 10) := by
    have hmono : fl (1 / 10) ≤ fl ((r : ℚ) / 10) := fl_mono (by linarith)
    have herr := abs_fl_sub_le_mul (1 / 10)
    rw [abs_of_pos (by norm_num : (0 : ℚ) < 1 / 10)] at herr
    have := (abs_le.mp herr).1
    have hnum : (1 : ℚ) / 10 / 2 ^ 53 ≤ 1 / 100 := by norm_num
    linarith
  have hb : fl (1 - fl ((r : ℚ) / 10)) ≤ 92 / 100 := by
    have hmono : fl (1 - fl ((r : ℚ) / 10)) ≤ fl (91 / 100) := fl_mono (by linarith)
    have herr := abs_fl_sub_le_mul (91 / 100)
    rw [abs_of_pos (by norm_num : (0 : ℚ) < 91 / 100)] at herr
    have := (abs_le.mp herr).2
    have hnum : (91 : ℚ) / 100 / 2 ^ 53 ≤ 1 / 100 := by norm_num
    linarith
  rcases le_or_lt 0 ((t : ℚ) * fl (1 - fl ((r : ℚ) / 10))) with hp | hn
  · have herr := abs_fl_sub_le_mul ((t : ℚ) * fl (1 - fl ((r : ℚ) / 10)))
    rw [abs_of_nonneg hp] at herr
    have h1 := (abs_le.mp herr).2
    have h2 : (t : ℚ) * fl (1 - fl ((r : ℚ) / 10)) ≤ (t : ℚ) * (92 / 100) :=
      mul_le_mul_of_nonneg_left hb htq
    have h3 : (t : ℚ) * fl (1 - fl ((r : ℚ) / 10)) / 2 ^ 53 ≤ (t : ℚ) * (92 / 100) / 2 ^ 53 :=
      div_le_div_of_nonneg_right h2 (by positivity)
    have h4 : (t : ℚ) * (92 / 100) / 2 ^ 53 ≤ (t : ℚ) * (1 / 100) := by
      rw [mul_div_assoc]
      exact mul_le_mul_of_nonneg_left (by norm_num) htq
    linarith
  · exact le_trans (fl_nonpos _ hn.le) htq

/-- With a total of 90 and 3 injuries the three double-precision operations give
`0.3` rounded down, `0.7` rounded down on a tie, and a product just below 63. -/
theorem healthMax_ninety_three (hardened : Bool) : healthMax 90 3 hardened = 62 := by
  have h1 : fl ((3 : ℚ) / 10) = 5404319552844595 / 18014398509481984 := by
    rw [fl_eval _ (-2) 5404319552844595 (by norm_num [abs_of_pos]) (by norm_num [abs_of_pos])
      (by norm_num) (by norm_num)]
    norm_num
  have h2 : fl (1 - (5404319552844595 : ℚ) / 18014398509481984)
      = 3152519739159347 / 4503599627370496 := by
    rw [fl_eval _ (-1) 6305039478318694 (by norm_num [abs_of_pos]) (by norm_num [abs_of_pos])
      (by norm_num) (by norm_num)]
    norm_num
  have h3 : fl ((90 : ℚ) * (3152519739159347 / 4503599627370496))
      = 8866461766385663 / 140737488355328 := by
    rw [fl_eval _ 5 8866461766385663 (by norm_num [abs_of_pos]) (by norm_num [abs_of_pos])
      (by norm_num) (by norm_num)]
    norm_num
  have hr : reducedInjuries 3 hardened = 3 := by
    cases hardened <;> simp [reducedInjuries]
  simp only [healthMax, hr]
  rw [if_pos (by norm_num)]
  simp only [Int.cast_ofNat]
  rw [h1, h2, h3]
  unfold trunc
  rw [if_pos (by norm_num)]
  exact Int.floor_eq_iff.mpr ⟨by norm_num, by norm_num⟩

/-! ## The range of the sample attack -/

/-- A digit string that writes a number below `2 ^ 53` converts to that number. -/
theorem toNumber_of_lt (digits : List Char) (h : decimalValue digits < 2 ^ 53) :
    toNumber digits = (decimalValue digits : ℚ) := by
  unfold toNumber
  have habs : |((decimalValue digits : ℕ) : ℤ)| < 2 ^ 53 := by
    rw [abs_of_nonneg (Int.natCast_nonneg _)]
    exact_mod_cast h
  have := fl_dyadic ((decimalValue digits : ℕ) : ℤ) 0 habs
  simpa using this

theorem range_sampleCheck (distance : Int) (conditions : List String) :
    range (sampleCheck distance conditions) = 6 := by
  have hranged : isRangedAttack (sampleCheck distance conditions) = true := rfl
  have hmatch : matchDigits (sampleCheck distance conditions).item.range.toList
      = some ['6'] := rfl
  have hvalue : decimalValue ['6'] = 6 := by decide
  simp only [range, hranged, ↓reduceIte, hmatch]
  rw [toNumber_of_lt _ (by rw [hvalue]; norm_num), hvalue]
  norm_num

/-- The sample attack of range 6 against a target at distance 9 fails the range
gate. -/
theorem sampleCheck_out_of_range :
    (attackOutOfRange sampleSettings (prepareContexts sampleHost (sampleCheck 9 []))).1
      = false := by
  have hc : prepareContexts sampleHost (sampleCheck 9 []) = sampleCheck 9 [] := rfl
  have hself : isSelfAttack (sampleCheck 9 []) = false := rfl
  have hctx : (sampleCheck 9 []).contexts
      = [{ uuid := "target", options := [], distance := some 9, evasion := ⟨1, 2, 3⟩ }] := rfl
  rw [hc]
  simp only [attackOutOfRange, hself, sampleSettings, Bool.not_false, Bool.and_self,
    ↓reduceIte, hctx, attackOutOfRangeLoop, range_sampleCheck]
  norm_num

/-- Above `2 ^ 53` the conversion rounds: the digit string "9007199254740995"
converts to 9007199254740996, so a distance of 9007199254740996 does not exceed
it. -/
theorem toNumber_rounds_above_two_pow_53 :
    toNumber "9007199254740995".toList = 9007199254740996 ∧
      ¬ (((9007199254740996 : ℤ) : ℚ) > toNumber "9007199254740995".toList) := by
  have hvalue : decimalValue "9007199254740995".toList = 9007199254740995 := by decide
  have h : toNumber "9007199254740995".toList = 9007199254740996 := by
    unfold toNumber
    rw [hvalue]
    rw [fl_eval _ 53 4503599627370497 (by norm_num [abs_of_pos]) (by norm_num [abs_of_pos])
      (by norm_num) (by norm_num)]
    norm_num
  refine ⟨h, ?_⟩
  rw [h]
  norm_num
/-! ## Lemmas on the `targets` map -/

theorem mapGet_mapSet_self (m : List (String × DcTarget)) (k : String) (v : DcTarget) :
    mapGet (mapSet m k v) k = some v := by
  induction m with
  | nil => simp [mapSet, mapGet]
  | cons p rest ih =>
    obtain ⟨k', v'⟩ := p
    by_cases h : k' = k
    · simp [mapSet, mapGet, h]
    · simp [mapSet, mapGet, h, ih]

theorem mapGet_mapSet_other (m : List (String × DcTarget)) (k j : String) (v : DcTarget)
    (h : k ≠ j) : mapGet (mapSet m k v) j = mapGet m j := by
  induction m with
  | nil => simp [mapSet, mapGet, h]
  | cons p rest ih =>
    obtain ⟨k', v'⟩ := p
    by_cases hk : k' = k
    · subst hk
      simp [mapSet, mapGet, h]
    · by_cases hj : k' = j
      · subst hj
        simp [mapSet, mapGet, hk]
      · simp [mapSet, mapGet, hk, hj, ih]

/-- Folding `Map.set` over contexts with pairwise distinct keys: the entry of a
visited context is the value computed for it. -/
theorem mapGet_foldl_mapSet (f : TargetContext → DcTarget) (l : List TargetContext)
    (m : List (String × DcTarget)) (context : TargetContext) (hmem : context ∈ l)
    (hkeys : (l.map TargetContext.uuid).Nodup) :
    mapGet (l.foldl (fun targets x => mapSet targets x.uuid (f x)) m) context.uuid
      = some (f context) := by
  induction l generalizing m with
  | nil => simp at hmem
  | cons x rest ih =>
    simp only [List.map_cons, List.nodup_cons] at hkeys
    simp only [List.foldl_cons]
    rcases List.mem_cons.mp hmem with h | h
    · subst h
      have hnot : ∀ (l' : List TargetContext) (m' : List (String × DcTarget)),
          context.uuid ∉ l'.map TargetContext.uuid →
          mapGet (l'.foldl (fun targets x => mapSet targets x.uuid (f x)) m') context.uuid
            = mapGet m' context.uuid := by
        intro l'
        induction l' with
        | nil => intro m' _; rfl
        | cons y ys ihy =>
          intro m' hy
          simp only [List.map_cons, List.mem_cons, not_or] at hy
          simp only [List.foldl_cons]
          rw [ihy _ hy.2, mapGet_mapSet_other _ _ _ _ (fun e => hy.1 e.symm)]
      rw [hnot rest _ hkeys.1, mapGet_mapSet_self]
    · exact ih _ h hkeys.2

/-- The entry that `execute` stores for a context, the keys (actor uuids) of the
context collection being pairwise distinct. -/
theorem mapGet_dcs (c : Check) (context : TargetContext)
    (hmem : context ∈ executeContexts c)
    (hkeys : ((executeContexts c).map TargetContext.uuid).Nodup) :
    mapGet (dcs c) context.uuid
      = some (dcTarget c.item.category (critRange c.actor.critRangeTotal) context) :=
  mapGet_foldl_mapSet _ _ _ _ hmem hkeys

theorem mem_fromRange (n : Nat) (min x : Int) :
    x ∈ fromRange n min ↔ min ≤ x ∧ x < min + n := by
  unfold fromRange
  simp only [List.mem_map, List.mem_range]
  constructor
  · rintro ⟨i, hi, rfl⟩
    omega
  · rintro ⟨h1, h2⟩
    exact ⟨(x - min).toNat, by omega, by omega⟩

theorem nodup_fromRange (n : Nat) (min : Int) : (fromRange n min).Nodup := by
  unfold fromRange
  refine List.Nodup.map ?_ (List.nodup_range n)
  intro a b h
  simpa using h

/-- Every branch of the loop body of `execute` keeps the critical range given to
the entry. -/
theorem dcTarget_critRange (category : Option String) (range : List Int)
    (context : TargetContext) : (dcTarget category range context).critRange = range := by
  have hs : ∀ (stuck : Bool) (ev : Evasion) (target : DcTarget),
      (caseSpecial stuck ev target).critRange = target.critRange := by
    intro stuck ev target
    unfold caseSpecial
    split_ifs <;> rfl
  have hp : ∀ (stuck : Bool) (ev : Evasion) (target : DcTarget),
      (casePhysical stuck ev target).critRange = target.critRange := by
    intro stuck ev target
    unfold casePhysical
    split_ifs <;> rfl
  unfold dcTarget switchCategory
  split_ifs <;> simp only [hs, hp, caseStatus]

/-! ## Claims on `execute` -/

/-- C1: in `execute`, a target context whose options contain
"target:condition:vulnerable" gets, whatever the action category and the evasion
block are, the entry with slug "vulnerable" and value 0, so every roll total that
is at least 0 meets the threshold; this entry is the one stored in the `targets`
map under the uuid of the target, the keys of the context collection being
distinct. -/
theorem vulnerable_target_threshold_zero (c : Check) (context : TargetContext)
    (hvuln : context.options.contains "target:condition:vulnerable" = true) :
    (∀ (category : Option String) (range : List Int),
        (dcTarget category range context).slug = some "vulnerable" ∧
        (dcTarget category range context).value = some 0 ∧
        (dcTarget category range context).critRange = range ∧
        ∀ total : Int, 0 ≤ total →
          ∀ v, (dcTarget category range context).value = some v → v ≤ total) ∧
      (context ∈ executeContexts c →
        ((executeContexts c).map TargetContext.uuid).Nodup →
        ∃ target, mapGet (dcs c) context.uuid = some target ∧
          target.slug = some "vulnerable" ∧ target.value = some 0 ∧
          target.critRange = critRange c.actor.critRangeTotal) := by
  have hentry : ∀ (category : Option String) (range : List Int),
      dcTarget category range context
        = { uuid := context.uuid, critRange := range, slug := some "vulnerable",
            value := some 0 } := by
    intro category range
    simp only [dcTarget, hvuln, ↓reduceIte]
  constructor
  · intro category range
    rw [hentry]
    refine ⟨rfl, rfl, rfl, ?_⟩
    intro total htotal v hv
    simp only [Option.some.injEq] at hv
    omega
  · intro hmem hkeys
    refine ⟨_, mapGet_dcs c context hmem hkeys, ?_⟩
    rw [hentry]
    exact ⟨rfl, rfl, rfl⟩

/-- Witness of C1: a Physical action against two targets, the second vulnerable
with evasions 7, 8 and 9. -/
theorem vulnerable_target_threshold_zero_witness :
    ∃ target, mapGet (dcs (sampleCheck 1 []).withVulnerableTarget) "target2" = some target ∧
      target.slug = some "vulnerable" ∧ target.value = some 0 ∧
      target.critRange = critRange (sampleCheck 1 []).withVulnerableTarget.actor.critRangeTotal :=
  (vulnerable_target_threshold_zero (sampleCheck 1 []).withVulnerableTarget
    ⟨"target2", ["target:condition:vulnerable"], some 1, ⟨7, 8, 9⟩⟩ (by decide)).2
    (by decide) (by decide)

/-- C2: a Physical action against a target that is neither vulnerable nor stuck,
with physical evasion 5, special evasion 0 and speed evasion 2. Physical exceeds
speed, yet `execute` resolves slug "speed-evasion" with value 2, the outcome of the
Special branch that runs after the Physical one. -/
theorem physical_action_resolved_by_special_branch :
    mapGet (dcs (sampleAttack "Physical" ⟨5, 0, 2⟩)) "target"
        = some { uuid := "target", critRange := [20], slug := some "speed-evasion",
                 value := some 2 } ∧
      (dcTarget (some "Physical") (critRange none) ⟨"target", [], some 1, ⟨5, 0, 2⟩⟩).slug
        = some "speed-evasion" ∧
      (dcTarget (some "Physical") (critRange none) ⟨"target", [], some 1, ⟨5, 0, 2⟩⟩).value
        = some 2 ∧
      (⟨5, 0, 2⟩ : Evasion).physical > (⟨5, 0, 2⟩ : Evasion).speed := by
  decide

/-- C3: a Status action against a target that is neither vulnerable nor stuck,
with physical evasion 0, special evasion 5 and speed evasion 2: `execute` resolves
slug "special-evasion" with value 5 instead of speed evasion 2. -/
theorem status_action_resolved_by_special_branch :
    mapGet (dcs (sampleAttack "Status" ⟨0, 5, 2⟩)) "target"
        = some { uuid := "target", critRange := [20], slug := some "special-evasion",
                 value := some 5 } ∧
      (dcTarget (some "Status") (critRange none) ⟨"target", [], some 1, ⟨0, 5, 2⟩⟩).slug
        = some "special-evasion" ∧
      (dcTarget (some "Status") (critRange none) ⟨"target", [], some 1, ⟨0, 5, 2⟩⟩).value
        = some 5 := by
  decide

/-- C4, as stated, fails: with a crit-range modifier total of 0 the critical range
is the single value 20, not the twenty values from 1 to 20. -/
theorem critRange_zero_is_not_one_to_twenty :
    critRange (some 0) = [20] ∧
      ¬ (∀ x : Int, x ∈ critRange (some 0) ↔ 1 + max 0 0 ≤ x ∧ x ≤ 20 - max 0 0) ∧
      (critRange (some 0)).length ≠ 20 - 2 * 0 := by
  refine ⟨by decide, ?_, by decide⟩
  intro h
  have h1 := (h 1).mpr (by decide)
  revert h1
  decide

/-- C4, amended: for every crit-range modifier total `c` (a missing total counts
as 0) the critical range that `execute` attaches to every target is exactly the
set of integers from `20 - max(c,0)` to 20 inclusive, without repetition, of size
`1 + max(c,0)`: `c = 0` gives `[20]`, `c = 3` gives `[17, 18, 19, 20]`, and a
negative `c` gives the range of `c = 0`. -/
theorem critRange_is_top_of_die (critRangeTotal : Option Int) :
    (∀ x : Int, x ∈ critRange critRangeTotal ↔
        20 - max (critRangeTotal.getD 0) 0 ≤ x ∧ x ≤ 20) ∧
      (critRange critRangeTotal).Nodup ∧
      ((critRange critRangeTotal).length : Int) = 1 + max (critRangeTotal.getD 0) 0 ∧
      critRange critRangeTotal = critRange (some (max (critRangeTotal.getD 0) 0)) ∧
      critRange none = [20] ∧ critRange (some 0) = [20] ∧
      critRange (some 3) = [17, 18, 19, 20] ∧
      (∀ (category : Option String) (context : TargetContext),
        (dcTarget category (critRange critRangeTotal) context).critRange
          = critRange critRangeTotal) := by
  refine ⟨?_, nodup_fromRange _ _, ?_, ?_, by decide, by decide, by decide,
    fun category context => dcTarget_critRange category _ context⟩
  · intro x
    unfold critRange
    simp only [mem_fromRange]
    omega
  · unfold critRange fromRange
    simp only [List.length_map, List.length_range]
    omega
  · simp only [critRange, Option.getD_some]
    rw [max_eq_left (le_max_right _ _)]

/-! ## Claims on the fail checks and the pipeline -/

/-- C5: when one of the three gates (no target, range, disability) returns false
on the check left by `prepareContexts`, `executeAttack` returns null and invokes
none of `prepareModifiers`, `prepareStatistic`, `beforeRoll`, `execute`,
`afterRoll`; the gates run in the order no target, range, disability, and the
first one to fail is the last method invoked. -/
theorem executeAttack_gate_failure_aborts {Roll : Type} (host : Host Roll)
    (settings : Settings) (scope : Scope) (c : Check)
    (hfail : (attackNoTargets settings (prepareContexts host c)).1 = false ∨
      (attackOutOfRange settings (prepareContexts host c)).1 = false ∨
      ∃ w, attackDisabled scope (prepareContexts host c) = .ok (false, w)) :
    (executeAttack host settings scope c).result = .ok none ∧
      (∀ s ∈ (executeAttack host settings scope c).trace,
        s ≠ Stage.prepareModifiers ∧ s ≠ Stage.prepareStatistic ∧ s ≠ Stage.beforeRoll ∧
        s ≠ Stage.execute ∧ s ≠ Stage.afterRoll) ∧
      (executeAttack host settings scope c).trace =
        if (attackNoTargets settings (prepareContexts host c)).1 = false then
          [Stage.prepareContexts, Stage.attackNoTargets]
        else if (attackOutOfRange settings (prepareContexts host c)).1 = false then
          [Stage.prepareContexts, Stage.attackNoTargets, Stage.attackOutOfRange]
        else
          [Stage.prepareContexts, Stage.attackNoTargets, Stage.attackOutOfRange,
            Stage.attackDisabled] := by
  by_cases h1 : (attackNoTargets settings (prepareContexts host c)).1 = false
  · simp [executeAttack, h1]
  · by_cases h2 : (attackOutOfRange settings (prepareContexts host c)).1 = false
    · simp [executeAttack, h1, h2]
    · rcases hfail with h | h | ⟨w, hw⟩
      · exact absurd h h1
      · exact absurd h h2
      · simp [executeAttack, h1, h2, hw]

/-- Witness of C5: a target at distance 9 of an attack of range 6 stops the
pipeline at the range gate. -/
theorem executeAttack_gate_failure_aborts_witness :
    (executeAttack sampleHost sampleSettings moduleScope (sampleCheck 9 [])).result
        = .ok none ∧
      (∀ s ∈ (executeAttack sampleHost sampleSettings moduleScope (sampleCheck 9 [])).trace,
        s ≠ Stage.prepareModifiers ∧ s ≠ Stage.prepareStatistic ∧ s ≠ Stage.beforeRoll ∧
        s ≠ Stage.execute ∧ s ≠ Stage.afterRoll) ∧
      (executeAttack sampleHost sampleSettings moduleScope (sampleCheck 9 [])).trace =
        if (attackNoTargets sampleSettings
            (prepareContexts sampleHost (sampleCheck 9 []))).1 = false then
          [Stage.prepareContexts, Stage.attackNoTargets]
        else if (attackOutOfRange sampleSettings
            (prepareContexts sampleHost (sampleCheck 9 []))).1 = false then
          [Stage.prepareContexts, Stage.attackNoTargets, Stage.attackOutOfRange]
        else
          [Stage.prepareContexts, Stage.attackNoTargets, Stage.attackOutOfRange,
            Stage.attackDisabled] :=
  executeAttack_gate_failure_aborts sampleHost sampleSettings moduleScope (sampleCheck 9 [])
    (Or.inr (Or.inl sampleCheck_out_of_range))

/-! ### The range gate -/

theorem dropWhile_append_of_forall {α : Type} (p : α → Bool) (pre rest : List α)
    (h : ∀ a ∈ pre, p a = true) : (pre ++ rest).dropWhile p = rest.dropWhile p := by
  induction pre with
  | nil => rfl
  | cons a as ih =>
    have ha : p a = true := h a (List.mem_cons_self a as)
    simp only [List.cons_append, List.dropWhile_cons, ha, ↓reduceIte]
    exact ih (fun b hb => h b (List.mem_cons_of_mem a hb))

theorem takeWhile_append_of_forall {α : Type} (p : α → Bool) (run post : List α)
    (hrun : ∀ a ∈ run, p a = true) (hpost : ∀ a ∈ post.head?, p a = false) :
    (run ++ post).takeWhile p = run := by
  induction run with
  | nil =>
    cases post with
    | nil => rfl
    | cons b bs =>
      have hb : p b = false := hpost b (by simp)
      simp [List.takeWhile_cons, hb]
  | cons a as ih =>
    have ha : p a = true := hrun a (List.mem_cons_self a as)
    simp only [List.cons_append, List.takeWhile_cons, ha, ↓reduceIte]
    rw [ih (fun b hb => hrun b (List.mem_cons_of_mem a hb))]

/-- The first run of digits of `pre ++ run ++ post`, where `pre` has no digit,
`run` is a non-empty string of digits and `post` does not start with a digit. -/
theorem matchDigits_decomposition (pre run post : List Char)
    (hpre : ∀ ch ∈ pre, ch.isDigit = false) (hne : run ≠ [])
    (hrun : ∀ ch ∈ run, ch.isDigit = true) (hpost : ∀ ch ∈ post.head?, ch.isDigit = false) :
    matchDigits (pre ++ run ++ post) = some run := by
  unfold matchDigits
  have h1 : (pre ++ run ++ post).dropWhile (fun ch => !ch.isDigit) = run ++ post := by
    rw [List.append_assoc, dropWhile_append_of_forall _ _ _ (by simpa using hpre)]
    cases run with
    | nil => exact absurd rfl hne
    | cons a as =>
      have ha : a.isDigit = true := hrun a (List.mem_cons_self a as)
      simp [List.dropWhile_cons, ha]
  simp only [h1, takeWhile_append_of_forall _ _ _ hrun hpost]
  cases run with
  | nil => exact absurd rfl hne
  | cons a as => rfl

theorem matchDigits_no_digit (s : List Char) (h : ∀ ch ∈ s, ch.isDigit = false) :
    matchDigits s = none := by
  unfold matchDigits
  have h1 : s.dropWhile (fun ch => !ch.isDigit) = [] := by
    have := dropWhile_append_of_forall (fun ch : Char => !ch.isDigit) s [] (by simpa using h)
    simpa using this
  simp [h1]

theorem decimalValue_foldl (digits : List Char) (acc : Nat) :
    digits.foldl (fun acc ch => 10 * acc + (ch.toNat - 48)) acc
      = acc * 10 ^ digits.length
        + Nat.ofDigits 10 (digits.reverse.map (fun ch => ch.toNat - 48)) := by
  induction digits generalizing acc with
  | nil => simp
  | cons a as ih =>
    simp only [List.foldl_cons, List.reverse_cons, List.map_append, List.map_cons,
      List.map_nil, List.length_cons]
    rw [ih, Nat.ofDigits_append, Nat.ofDigits_singleton]
    simp only [List.length_map, List.length_reverse]
    ring

/-- The value of a string of digits is the number it writes in base 10. -/
theorem decimalValue_eq_ofDigits (digits : List Char) :
    decimalValue digits = Nat.ofDigits 10 (digits.reverse.map (fun ch => ch.toNat - 48)) := by
  unfold decimalValue
  rw [decimalValue_foldl]
  simp

theorem attackOutOfRangeLoop_false_iff (c : Check) (l : List TargetContext) :
    (attackOutOfRangeLoop c l).1 = false ↔
      ∃ context ∈ l, ∃ d, context.distance = some d ∧ (d : ℚ) > range c := by
  induction l with
  | nil => simp [attackOutOfRangeLoop]
  | cons x rest ih =>
    unfold attackOutOfRangeLoop
    cases hd : x.distance with
    | none => simp [hd, ih]
    | some d =>
      by_cases hgt : (d : ℚ) > range c
      · simp only [hgt, ↓reduceIte, true_iff]
        exact ⟨x, List.mem_cons_self x rest, d, hd, hgt⟩
      · simp only [hgt, ↓reduceIte, ih, List.mem_cons, exists_eq_or_imp, hd,
          Option.some.injEq, exists_eq_left', false_or]

/-- C6: with the out-of-range automation enabled, `attackOutOfRange` returns false
exactly when the check is not self-only and some target context has a numeric
distance strictly greater than the effective range. The effective range is 1 for
a non-ranged attack; for a ranged attack it is 1 when the range descriptor has no
digit, and otherwise the number written by the first run of decimal digits of the
descriptor, that number being below `2 ^ 53` (beyond which a Number no longer holds
every integer). Contexts without a numeric distance do not count and a self-only
check passes. -/
theorem attackOutOfRange_false_iff (settings : Settings) (c : Check)
    (hauto : settings.failAttackIfOutOfRange = true) :
    ((attackOutOfRange settings c).1 = false ↔
        isSelfAttack c = false ∧
          ∃ context ∈ c.contexts, ∃ d, context.distance = some d ∧ (d : ℚ) > range c) ∧
      (isSelfAttack c = true → (attackOutOfRange settings c).1 = true) ∧
      (isRangedAttack c = false → range c = 1) ∧
      (isRangedAttack c = true → (∀ ch ∈ c.item.range.toList, ch.isDigit = false) →
        range c = 1) ∧
      (isRangedAttack c = true → ∀ pre run post : List Char,
        c.item.range.toList = pre ++ run ++ post →
        (∀ ch ∈ pre, ch.isDigit = false) → run ≠ [] → (∀ ch ∈ run, ch.isDigit = true) →
        (∀ ch ∈ post.head?, ch.isDigit = false) →
        Nat.ofDigits 10 (run.reverse.map (fun ch => ch.toNat - 48)) < 2 ^ 53 →
        range c = (Nat.ofDigits 10 (run.reverse.map (fun ch => ch.toNat - 48)) : ℕ)) := by
  refine ⟨?_, ?_, ?_, ?_, ?_⟩
  · cases hself : isSelfAttack c with
    | true => simp [attackOutOfRange, hself]
    | false => simp [attackOutOfRange, hself, hauto, attackOutOfRangeLoop_false_iff]
  · intro hself
    simp [attackOutOfRange, hself]
  · intro h
    simp [range, h]
  · intro h hno
    simp only [range, h, ↓reduceIte, matchDigits_no_digit _ hno]
  · intro h pre run post hs hpre hne hrun hpost hlt
    simp only [range, h, ↓reduceIte, hs,
      matchDigits_decomposition pre run post hpre hne hrun hpost]
    rw [toNumber_of_lt _ (by rw [decimalValue_eq_ofDigits]; exact hlt),
      decimalValue_eq_ofDigits]

/-- Witness of C6: range "6, 1 Target" and a target at distance 9. -/
theorem attackOutOfRange_false_iff_witness :
    ((attackOutOfRange sampleSettings (sampleCheck 9 [])).1 = false ↔
        isSelfAttack (sampleCheck 9 []) = false ∧
          ∃ context ∈ (sampleCheck 9 []).contexts,
            ∃ d, context.distance = some d ∧ (d : ℚ) > range (sampleCheck 9 [])) ∧
      (attackOutOfRange sampleSettings (sampleCheck 9 [])).1 = false ∧
      range (sampleCheck 9 []) = 6 :=
  ⟨(attackOutOfRange_false_iff sampleSettings (sampleCheck 9 []) rfl).1,
    sampleCheck_out_of_range, range_sampleCheck 9 []⟩

/-! ### The disability gate -/

/-- C7: in the scope of `attack.js` the identifiers `selectors`, `rollOptions` and
`move` of `attackDisabled` have no binding, so for a source that is enraged,
disabled or suppressed (and neither unable to attack, frozen nor asleep) the
method throws a `ReferenceError` instead of returning a boolean; the first three
conditions do return false with their own warning, and a source with none of the
six conditions passes. -/
theorem attackDisabled_throws_on_rage_disabled_suppressed :
    attackDisabled moduleScope (sampleCheck 1 ["condition:rage"])
        = .error "ReferenceError: selectors is not defined" ∧
      attackDisabled moduleScope (sampleCheck 1 ["condition:disabled"])
        = .error "ReferenceError: rollOptions is not defined" ∧
      attackDisabled moduleScope (sampleCheck 1 ["condition:suppressed"])
        = .error "ReferenceError: selectors is not defined" ∧
      attackDisabled moduleScope (sampleCheck 1 ["condition:frozen"])
        = .ok (false, ["PTU.Action.MoveWhileFrozen"]) ∧
      attackDisabled moduleScope (sampleCheck 1 ["condition:sleep"])
        = .ok (false, ["PTU.Action.MoveWhileSleeping"]) ∧
      attackDisabled moduleScope (sampleCheck 1 []) = .ok (true, []) :=
  ⟨rfl, rfl, rfl, rfl, rfl, rfl⟩

/-! ## Claim on `prepareModifiers` -/

/-- C8: after `prepareModifiers` the modifier list of the check is one modifier
with slug "accuracy-check" whose value is `-Number(ac)`, or `Infinity` when
`Number(ac)` is not a number, followed by the modifiers left by the inherited
`prepareModifiers` in their order, followed, exactly when the accuracy-bonus total
`b` of the source is not 0, by one modifier with slug "accuracy-bonus" and value
`b`; its length is 1 plus the number of inherited modifiers, plus 1 when `b` is not
0. -/
theorem prepareModifiers_list (superPrepareModifiers : Check → Check) (c : Check) :
    (prepareModifiers superPrepareModifiers c).modifiers =
        [{ slug := "accuracy-check", label := "Accuracy Check",
           modifier := match (superPrepareModifiers c).item.acNumber with
             | none => ModifierValue.infinity
             | some ac => ModifierValue.fin (-ac) }]
        ++ (superPrepareModifiers c).modifiers
        ++ (if (superPrepareModifiers c).actor.acBonusTotal = 0 then []
            else [{ slug := "accuracy-bonus", label := "Accuracy Bonus",
                    modifier := ModifierValue.fin (superPrepareModifiers c).actor.acBonusTotal }]) ∧
      (prepareModifiers superPrepareModifiers c).modifiers.length =
        1 + (superPrepareModifiers c).modifiers.length
          + (if (superPrepareModifiers c).actor.acBonusTotal = 0 then 0 else 1) ∧
      ((prepareModifiers superPrepareModifiers c).modifiers.map PTUModifier.slug).head?
        = some "accuracy-check" := by
  by_cases hb : (superPrepareModifiers c).actor.acBonusTotal = 0
  · simp [prepareModifiers, hb]
    omega
  · simp [prepareModifiers, hb]
    omega

/-! ## Claims on the health block -/

/-- C9, as stated, fails. With a total of 15 and 11 injuries (not hardened) the
product is negative and `Math.trunc` rounds it toward zero, to -1, where the floor
is -2. With a total of 90 and 3 injuries the double-precision product is just below
63 and the health maximum is 62, where the floor of the exact product is 63. -/
theorem healthMax_is_not_floor :
    healthMax 15 11 false = -1 ∧ ⌊(15 : ℚ) * (1 - 11 / 10)⌋ = -2 ∧
      healthMax 90 3 false = 62 ∧ ⌊(90 : ℚ) * (1 - 3 / 10)⌋ = 63 := by
  refine ⟨?_, ?_, healthMax_ninety_three false, ?_⟩
  · rw [healthMax_eq_trunc_exact 15 11 false (by norm_num) (by norm_num) (by norm_num)
      (Or.inr (by decide))]
    have hr : reducedInjuries 11 false = 11 := rfl
    rw [hr]
    unfold trunc
    rw [if_neg (by norm_num)]
    exact Int.ceil_eq_iff.mpr ⟨by norm_num, by norm_num⟩
  · exact Int.floor_eq_iff.mpr ⟨by norm_num, by norm_num⟩
  · exact Int.floor_eq_iff.mpr ⟨by norm_num, by norm_num⟩

/-- C9, amended: for a health total and an injury count of absolute value at most
1,000,000 and every hardened flag, `health.max` is the total when injuries is not
greater than 0; otherwise, with `r = min(injuries, 5)` when the hardened flag is
set and `r = injuries` when it is not, and provided `r` is a multiple of 5 or
`total * r` is not a multiple of 10, `health.max` is `total * (1 - r/10)` rounded
toward zero, which is its floor when the total is non-negative and `r ≤ 10`. -/
theorem healthMax_rounds_toward_zero (total injuries : ℤ) (hardened : Bool)
    (htotal : |total| ≤ 10 ^ 6) (hinj : injuries ≤ 10 ^ 6) :
    (¬ injuries > 0 → healthMax total injuries hardened = total) ∧
      (injuries > 0 →
        ((5 : ℤ) ∣ reducedInjuries injuries hardened
          ∨ ¬ (10 : ℤ) ∣ total * reducedInjuries injuries hardened) →
        healthMax total injuries hardened
            = trunc ((total : ℚ) * (1 - (reducedInjuries injuries hardened : ℚ) / 10)) ∧
          (0 ≤ total → reducedInjuries injuries hardened ≤ 10 →
            healthMax total injuries hardened
              = ⌊(total : ℚ) * (1 - (reducedInjuries injuries hardened : ℚ) / 10)⌋)) ∧
      reducedInjuries injuries true = min injuries 5 ∧
      reducedInjuries injuries false = injuries := by
  refine ⟨?_, ?_, rfl, rfl⟩
  · intro h
    simp only [healthMax, h, ↓reduceIte]
  · intro hpos hexact
    have h := healthMax_eq_trunc_exact total injuries hardened htotal hinj hpos hexact
    refine ⟨h, ?_⟩
    intro h0 h10
    rw [h]
    apply trunc_eq_floor_of_nonneg
    have h0q : (0 : ℚ) ≤ total := by exact_mod_cast h0
    have h10q : (reducedInjuries injuries hardened : ℚ) ≤ 10 := by exact_mod_cast h10
    exact mul_nonneg h0q (by linarith)

/-- Witness of C9: a total of 95 with 3 injuries, not hardened, gives 66. -/
theorem healthMax_rounds_toward_zero_witness :
    healthMax 95 3 false = ⌊((95 : ℤ) : ℚ) * (1 - (reducedInjuries 3 false : ℚ) / 10)⌋ ∧
      ⌊((95 : ℤ) : ℚ) * (1 - (reducedInjuries 3 false : ℚ) / 10)⌋ = 66 :=
  ⟨((healthMax_rounds_toward_zero 95 3 false (by norm_num) (by norm_num)).2.1 (by norm_num)
      (Or.inr (by decide))).2 (by norm_num) (by decide),
    Int.floor_eq_iff.mpr ⟨by norm_num [reducedInjuries], by norm_num [reducedInjuries]⟩⟩

/-- C10, as stated, fails for a negative health total: with a total of -7 the
health maximum is -6 with 1 injury and -5 with 2 injuries. -/
theorem healthMax_increases_for_negative_total :
    healthMax (-7) 1 false = -6 ∧ healthMax (-7) 2 false = -5 ∧
      ¬ (healthMax (-7) 2 false ≤ healthMax (-7) 1 false) := by
  have h1 : healthMax (-7) 1 false = -6 := by
    rw [healthMax_eq_trunc_exact (-7) 1 false (by norm_num) (by norm_num) (by norm_num)
      (Or.inr (by decide))]
    have hr : reducedInjuries 1 false = 1 := rfl
    rw [hr]
    unfold trunc
    rw [if_neg (by norm_num)]
    exact Int.ceil_eq_iff.mpr ⟨by norm_num, by norm_num⟩
  have h2 : healthMax (-7) 2 false = -5 := by
    rw [healthMax_eq_trunc_exact (-7) 2 false (by norm_num) (by norm_num) (by norm_num)
      (Or.inr (by decide))]
    have hr : reducedInjuries 2 false = 2 := rfl
    rw [hr]
    unfold trunc
    rw [if_neg (by norm_num)]
    exact Int.ceil_eq_iff.mpr ⟨by norm_num, by norm_num⟩
  refine ⟨h1, h2, ?_⟩
  rw [h1, h2]
  decide

/-- C10, amended: for every non-negative health total, every hardened flag and all
injury counts `i ≤ j`, the `health.max` computed with `j` injuries is at most the
`health.max` computed with `i` injuries. -/
theorem healthMax_nonincreasing_in_injuries (total : ℤ) (hardened : Bool) (i j : ℤ)
    (htotal : 0 ≤ total) (hij : i ≤ j) :
    healthMax total j hardened ≤ healthMax total i hardened := by
  have htq : (0 : ℚ) ≤ total := by exact_mod_cast htotal
  unfold healthMax
  by_cases hi : i > 0
  · have hj : j > 0 := by omega
    simp only [hi, hj, ↓reduceIte]
    apply trunc_mono
    apply fl_mono
    apply mul_le_mul_of_nonneg_left _ htq
    apply fl_mono
    have hr : (reducedInjuries i hardened : ℚ) ≤ reducedInjuries j hardened := by
      exact_mod_cast reducedInjuries_mono hardened hij
    have := fl_mono (div_le_div_of_nonneg_right hr (by norm_num : (0 : ℚ) ≤ 10))
    linarith
  · simp only [hi, ↓reduceIte]
    by_cases hj : j > 0
    · simp only [hj, ↓reduceIte]
      exact trunc_le_of_le_intCast _ _
        (fl_product_le_total total _ htotal (one_le_reducedInjuries hardened hj))
    · simp only [hj, ↓reduceIte]
      exact le_refl _

/-- Witness of C10: a total of 90, hardened, with 3 and with 8 injuries. -/
theorem healthMax_nonincreasing_in_injuries_witness : healthMax 90 8 true ≤ healthMax 90 3 true :=
  healthMax_nonincreasing_in_injuries 90 true 3 8 (by norm_num) (by norm_num)

/-! ## Clamping and double-precision quotients -/

theorem clamped_bounds (num lower upper : ℤ) (h : lower ≤ upper) :
    lower ≤ clamped num lower upper ∧ clamped num lower upper ≤ upper := by
  unfold clamped
  exact ⟨le_min h (le_max_right _ _), min_le_left _ _⟩

theorem clamped_of_mem (num lower upper : ℤ) (h1 : lower ≤ num) (h2 : num ≤ upper) :
    clamped num lower upper = num := by
  unfold clamped
  rw [max_eq_left h1, min_eq_right h2]

theorem clamped_mono (lower upper : ℤ) {a b : ℤ} (h : a ≤ b) :
    clamped a lower upper ≤ clamped b lower upper := by
  unfold clamped
  exact min_le_min_left _ (max_le_max_right _ h)

/-- The floor is stable under a perturbation smaller than the distance of a
non-integral fraction `p / D` to the integers. -/
theorem floor_eq_of_close (p D : ℤ) (hD : 0 < D) (hnd : ¬ D ∣ p) (c : ℚ)
    (hc : |c - (p : ℚ) / D| < 1 / D) : ⌊c⌋ = ⌊(p : ℚ) / D⌋ := by
  obtain ⟨h1, h2⟩ := abs_lt.mp hc
  have hDq : (0 : ℚ) < D := by exact_mod_cast hD
  have hmod : 1 ≤ p % D ∧ p % D ≤ D - 1 := by
    have h0 := Int.emod_nonneg p hD.ne'
    have h3 := Int.emod_lt_of_pos p hD
    have : p % D ≠ 0 := fun h => hnd (Int.dvd_of_emod_eq_zero h)
    omega
  have hp : p = D * (p / D) + p % D := (Int.ediv_add_emod p D).symm
  have hpq : (p : ℚ) = D * ((p / D : ℤ) : ℚ) + ((p % D : ℤ) : ℚ) := by exact_mod_cast hp
  have hm1 : (1 : ℚ) ≤ ((p % D : ℤ) : ℚ) := by exact_mod_cast hmod.1
  have hm2 : ((p % D : ℤ) : ℚ) ≤ D - 1 := by exact_mod_cast hmod.2
  have hx : (p : ℚ) / D = ((p / D : ℤ) : ℚ) + ((p % D : ℤ) : ℚ) / D := by
    rw [hpq]
    field_simp
    ring
  have hfrac1 : (1 : ℚ) / D ≤ ((p % D : ℤ) : ℚ) / D :=
    div_le_div_of_nonneg_right hm1 hDq.le
  have hfrac2 : ((p % D : ℤ) : ℚ) / D ≤ 1 - 1 / D := by
    rw [div_le_iff₀ hDq]
    have : (1 - 1 / (D : ℚ)) * D = D - 1 := by field_simp
    rw [this]
    exact hm2
  rw [Int.floor_eq_iff.mpr (⟨by linarith, by linarith⟩ :
        ((p / D : ℤ) : ℚ) ≤ c ∧ c < ((p / D : ℤ) : ℚ) + 1),
    Int.floor_eq_iff.mpr (⟨by linarith, by linarith⟩ :
        ((p / D : ℤ) : ℚ) ≤ (p : ℚ) / D ∧ (p : ℚ) / D < ((p / D : ℤ) : ℚ) + 1)]

/-- The floor of the double quotient of an integer by 10 is the floor of the exact
quotient, for an integer of absolute value at most `10 ^ 15`. -/
theorem floor_fl_div_ten (t : ℤ) (ht : |t| ≤ 10 ^ 15) :
    ⌊fl ((t : ℚ) / 10)⌋ = ⌊(t : ℚ) / 10⌋ := by
  by_cases hdvd : (10 : ℤ) ∣ t
  · obtain ⟨k, rfl⟩ := hdvd
    have hk : |k| < 2 ^ 53 := by
      rw [abs_mul] at ht
      have : |(10 : ℤ)| = 10 := by norm_num
      rw [this] at ht
      have h0 := abs_nonneg k
      omega
    have e : (((10 * k : ℤ) : ℚ)) / 10 = (k : ℚ) * 2 ^ (0 : ℤ) := by
      push_cast
      rw [zpow_zero]
      ring
    rw [e, fl_dyadic k 0 hk]
  · have htq : |(t : ℚ)| ≤ 10 ^ 15 := by exact_mod_cast ht
    have herr := abs_fl_sub_le_mul ((t : ℚ) / 10)
    have habs : |(t : ℚ) / 10| ≤ 10 ^ 14 := by
      rw [abs_div]
      have : |(10 : ℚ)| = 10 := by norm_num
      rw [this, div_le_iff₀ (by norm_num)]
      linarith
    have hdiv : |(t : ℚ) / 10| / 2 ^ 53 ≤ 10 ^ 14 / 2 ^ 53 :=
      div_le_div_of_nonneg_right habs (by positivity)
    have hnum : (10 : ℚ) ^ 14 / 2 ^ 53 < 1 / 10 := by norm_num
    have := floor_eq_of_close t 10 (by norm_num) hdvd (fl ((t : ℚ) / 10))
      (by push_cast; linarith)
    simpa using this

/-- The floor of the double quotient by 10 is at least 3 from 30 on. -/
theorem three_le_floor_fl_div_ten (t : ℤ) (ht : 30 ≤ t) : 3 ≤ ⌊fl ((t : ℚ) / 10)⌋ := by
  have h3 : fl 3 = 3 := by
    have := fl_dyadic 3 0 (by norm_num)
    simpa using this
  have htq : (30 : ℚ) ≤ t := by exact_mod_cast ht
  have hmono : fl 3 ≤ fl ((t : ℚ) / 10) := fl_mono (by linarith)
  rw [h3] at hmono
  exact Int.le_floor.mpr (by exact_mod_cast hmono)

/-- The double-precision percentage is within `1 / 10 ^ 7` of the exact one when
the value is at most a million in absolute value. -/
theorem abs_percent_sub_le (v m : ℤ) (hv : |v| ≤ 10 ^ 6) (hm : m ≠ 0) :
    |fl (fl ((v : ℚ) / m) * 100) - 100 * (v : ℚ) / m| ≤ 1 / 10 ^ 7 := by
  have hvq : |(v : ℚ)| ≤ 10 ^ 6 := by exact_mod_cast hv
  have hm1 : (1 : ℚ) ≤ |(m : ℚ)| := by
    have : (1 : ℤ) ≤ |m| := Int.one_le_abs hm
    have : ((1 : ℤ) : ℚ) ≤ ((|m| : ℤ) : ℚ) := by exact_mod_cast this
    rw [Int.cast_abs] at this
    simpa using this
  have hx1 : |(v : ℚ) / m| ≤ 10 ^ 6 := by
    rw [abs_div, div_le_iff₀ (by linarith)]
    calc |(v : ℚ)| ≤ 10 ^ 6 := hvq
      _ ≤ 10 ^ 6 * |(m : ℚ)| := by nlinarith
  have hpow : (0 : ℚ) < 2 ^ 53 := by positivity
  have ha := abs_fl_sub_le_mul ((v : ℚ) / m)
  have ha' := abs_fl_le ((v : ℚ) / m)
  have hdiv1 : |(v : ℚ) / m| / 2 ^ 53 ≤ 10 ^ 6 / 2 ^ 53 :=
    div_le_div_of_nonneg_right hx1 hpow.le
  have haabs : |fl ((v : ℚ) / m)| ≤ 10 ^ 6 + 1 := by
    have : (10 : ℚ) ^ 6 / 2 ^ 53 ≤ 1 := by norm_num
    linarith
  have hx2 : |fl ((v : ℚ) / m) * 100| ≤ (10 ^ 6 + 1) * 100 := by
    rw [abs_mul]
    have : |(100 : ℚ)| = 100 := by norm_num
    rw [this]
    exact mul_le_mul_of_nonneg_right haabs (by norm_num)
  have hc := abs_fl_sub_le_mul (fl ((v : ℚ) / m) * 100)
  have hdiv2 : |fl ((v : ℚ) / m) * 100| / 2 ^ 53 ≤ (10 ^ 6 + 1) * 100 / 2 ^ 53 :=
    div_le_div_of_nonneg_right hx2 hpow.le
  have hsplit : fl (fl ((v : ℚ) / m) * 100) - 100 * (v : ℚ) / m
      = (fl (fl ((v : ℚ) / m) * 100) - fl ((v : ℚ) / m) * 100)
        + 100 * (fl ((v : ℚ) / m) - (v : ℚ) / m) := by ring
  have h2 : |100 * (fl ((v : ℚ) / m) - (v : ℚ) / m)| ≤ 100 * (10 ^ 6 / 2 ^ 53) := by
    rw [abs_mul]
    have : |(100 : ℚ)| = 100 := by norm_num
    rw [this]
    exact mul_le_mul_of_nonneg_left (le_trans ha hdiv1) (by norm_num)
  rw [hsplit]
  refine le_trans (abs_add _ _) ?_
  have hnum : ((10 : ℚ) ^ 6 + 1) * 100 / 2 ^ 53 + 100 * (10 ^ 6 / 2 ^ 53) ≤ 1 / 10 ^ 7 := by
    norm_num
  linarith

/-- The percentage of lines 133-134 is the exact one, rounded with ties upward,
when the divisor is not zero, value and divisor are at most a million in absolute
value and the exact percentage is not halfway between two integers. -/
theorem healthPercent_eq_round (v m : ℤ) (hv : |v| ≤ 10 ^ 6) (hmb : |m| ≤ 10 ^ 6)
    (hm : m ≠ 0) (htie : ¬ 2 * m ∣ 200 * v + m) :
    healthPercent v m = Rounded.int ⌊100 * (v : ℚ) / m + 1 / 2⌋ := by
  have hmq : (m : ℚ) ≠ 0 := by exact_mod_cast hm
  have herr := abs_percent_sub_le v m hv hm
  have hD : (0 : ℤ) < 2 * |m| := by
    have := abs_pos.mpr hm
    omega
  have hDle : ((2 * |m| : ℤ) : ℚ) ≤ 2 * 10 ^ 6 := by
    have : 2 * |m| ≤ 2 * 10 ^ 6 := by omega
    exact_mod_cast this
  have hDq : (0 : ℚ) < ((2 * |m| : ℤ) : ℚ) := by exact_mod_cast hD
  have hclose_bound : (1 : ℚ) / 10 ^ 7 < 1 / ((2 * |m| : ℤ) : ℚ) := by
    rw [div_lt_div_iff₀ (by positivity) hDq]
    linarith
  simp only [healthPercent, hm, ↓reduceIte, mathRound]
  congr 1
  rcases lt_or_gt_of_ne hm with hneg | hpos
  · have habs : |m| = -m := abs_of_neg hneg
    have hz : 100 * (v : ℚ) / m + 1 / 2 = ((-(200 * v + m) : ℤ) : ℚ) / ((2 * |m| : ℤ) : ℚ) := by
      rw [habs]
      push_cast
      field_simp
      ring
    have hnd : ¬ (2 * |m|) ∣ -(200 * v + m) := by
      rw [habs, show 2 * -m = -(2 * m) by ring]
      intro h
      exact htie ((neg_dvd.mp (Int.dvd_neg.mp h)))
    rw [hz]
    apply floor_eq_of_close _ _ hD hnd
    rw [← hz]
    have : fl (fl ((v : ℚ) / m) * 100) + 1 / 2 - (100 * (v : ℚ) / m + 1 / 2)
        = fl (fl ((v : ℚ) / m) * 100) - 100 * (v : ℚ) / m := by ring
    rw [this]
    exact lt_of_le_of_lt herr hclose_bound
  · have habs : |m| = m := abs_of_pos hpos
    have hz : 100 * (v : ℚ) / m + 1 / 2 = ((200 * v + m : ℤ) : ℚ) / ((2 * |m| : ℤ) : ℚ) := by
      rw [habs]
      push_cast
      field_simp
      ring
    have hnd : ¬ (2 * |m|) ∣ 200 * v + m := by
      rw [habs]
      exact htie
    rw [hz]
    apply floor_eq_of_close _ _ hD hnd
    rw [← hz]
    have : fl (fl ((v : ℚ) / m) * 100) + 1 / 2 - (100 * (v : ℚ) / m + 1 / 2)
        = fl (fl ((v : ℚ) / m) * 100) - 100 * (v : ℚ) / m := by ring
    rw [this]
    exact lt_of_le_of_lt herr hclose_bound

/-! ## Claim on the level -/

/-- The level lies between 1 and the level cap, and is the unclamped formula when
that lies in the interval. -/
theorem levelCurrent_bounds (trainerRevamp : Bool) (milestones miscexp dexexp : ℤ) :
    1 ≤ levelCurrent trainerRevamp milestones miscexp dexexp ∧
      levelCurrent trainerRevamp milestones miscexp dexexp ≤ levelCap trainerRevamp ∧
      (1 ≤ unclampedLevel milestones miscexp dexexp →
        unclampedLevel milestones miscexp dexexp ≤ levelCap trainerRevamp →
        levelCurrent trainerRevamp milestones miscexp dexexp
          = unclampedLevel milestones miscexp dexexp) := by
  have hcap : 1 ≤ levelCap trainerRevamp := by
    cases trainerRevamp <;> simp [levelCap]
  unfold levelCurrent
  exact ⟨(clamped_bounds _ _ _ hcap).1, (clamped_bounds _ _ _ hcap).2,
    fun h1 h2 => clamped_of_mem _ _ _ h1 h2⟩

/-- The double-precision sum `-46 / 10 + 36 / 10` is `-0.9999999999999996`, which
`Math.trunc` rounds to 0. -/
theorem trunc_level_sum : trunc (fl (fl ((-46 : ℚ) / 10) + fl ((36 : ℚ) / 10))) = 0 := by
  have h1 : fl ((-46 : ℚ) / 10) = -2589569785738035 / 562949953421312 := by
    rw [fl_eval _ 2 (-5179139571476071) (by norm_num [abs_of_neg]) (by norm_num [abs_of_neg])
      (by norm_num) (by norm_num)]
    norm_num
  have h2 : fl ((36 : ℚ) / 10) = 8106479329266893 / 2251799813685248 := by
    rw [fl_eval _ 1 8106479329266892 (by norm_num [abs_of_pos]) (by norm_num [abs_of_pos])
      (by norm_num) (by norm_num)]
    norm_num
  have h3 : fl ((-2589569785738035 : ℚ) / 562949953421312
      + 8106479329266893 / 2251799813685248) = -2251799813685247 / 2251799813685248 := by
    rw [fl_eval _ (-1) (-9007199254740988) (by norm_num [abs_of_neg])
      (by norm_num [abs_of_neg]) (by norm_num) (by norm_num)]
    norm_num
  rw [h1, h2, h3]
  unfold trunc
  rw [if_neg (by norm_num)]
  exact Int.ceil_eq_iff.mpr ⟨by norm_num, by norm_num⟩

/-- C11: with 5 milestones, a miscellaneous experience of -46 and 36 owned dex
entries (dex experience in use, trainerRevamp off), `prepareBaseData` sets the
level to 6, while `1 + 5 + trunc(-46/10 + 36/10)` is 5: the double-precision sum
is just above -1. -/
theorem levelCurrent_off_by_one :
    levelCurrent false 5 (-46) (dexexp true (some 36)) = 6 ∧
      clamped (1 + 5 + trunc ((-46 : ℚ) / 10 + (36 : ℚ) / 10)) 1 (levelCap false) = 5 := by
  constructor
  · have hd : dexexp true (some 36) = 36 := rfl
    have ht : trunc (fl (fl (((-46 : ℤ) : ℚ) / 10) + fl (((36 : ℤ) : ℚ) / 10))) = 0 := by
      have := trunc_level_sum
      simpa using this
    simp only [levelCurrent, unclampedLevel, hd, ht]
    decide
  · have ht : trunc ((-46 : ℚ) / 10 + (36 : ℚ) / 10) = -1 := by
      unfold trunc
      rw [if_neg (by norm_num)]
      exact Int.ceil_eq_iff.mpr ⟨by norm_num, by norm_num⟩
    rw [ht]
    decide

/-! ## Claims on the stat points -/

/-- C12: the stat point budget that `prepareDerivedData` computes at line 105 is
`levelFactor + s + 9`, where `levelFactor` is `2 * L` with the trainerRevamp
variant and `L` without it; a level of 10 without the variant gives
`10 + s + 9`. -/
theorem levelUpPoints_formula (trainerRevamp : Bool) (L s : ℤ) :
    levelUpPoints trainerRevamp L s = (if trainerRevamp then 2 * L else L) + s + 9 ∧
      levelUpPoints true L s = 2 * L + s + 9 ∧
      levelUpPoints false L s = L + s + 9 ∧
      levelUpPoints false 10 s = 10 + s + 9 := by
  refine ⟨?_, ?_, ?_, ?_⟩
  · cases trainerRevamp
    · simp [levelUpPoints]
    · simp only [levelUpPoints, ↓reduceIte]
      ring
  · simp only [levelUpPoints, ↓reduceIte]
    ring
  · simp [levelUpPoints]
  · simp [levelUpPoints]

/-- The reduction `Math.max(0, Math.clamped(0, leftover, leftover - s))` of line 111
does not decrease when the leftover grows. -/
theorem levelReduction_mono (s : ℤ) {a b : ℤ} (h : a ≤ b) :
    max 0 (clamped 0 a (a - s)) ≤ max 0 (clamped 0 b (b - s)) := by
  unfold clamped
  apply max_le_max_left
  exact min_le_min (by omega) (max_le_max_left _ h)

/-- C13: for a current level `L ≥ 1`, every stat-points modifier total and every
allocation of invested points, the actual level of line 111 lies between 1 and
`L`, and for fixed `L` and stat-points total a larger leftover of level-up points
never gives a larger actual level. -/
theorem actualLevel_bounds_and_antitone (trainerRevamp : Bool) (L s : ℤ) (hL : 1 ≤ L) :
    (∀ levelUp : List ℤ,
        1 ≤ actualLevel L (leftoverLevelUpPoints (levelUpPoints trainerRevamp L s) levelUp) s ∧
        actualLevel L (leftoverLevelUpPoints (levelUpPoints trainerRevamp L s) levelUp) s ≤ L) ∧
      (∀ leftover : ℤ, 1 ≤ actualLevel L leftover s ∧ actualLevel L leftover s ≤ L) ∧
      (∀ leftover₁ leftover₂ : ℤ, leftover₁ ≤ leftover₂ →
        actualLevel L leftover₂ s ≤ actualLevel L leftover₁ s) ∧
      (∀ levelUp₁ levelUp₂ : List ℤ,
        leftoverLevelUpPoints (levelUpPoints trainerRevamp L s) levelUp₁
          ≤ leftoverLevelUpPoints (levelUpPoints trainerRevamp L s) levelUp₂ →
        actualLevel L (leftoverLevelUpPoints (levelUpPoints trainerRevamp L s) levelUp₂) s
          ≤ actualLevel L (leftoverLevelUpPoints (levelUpPoints trainerRevamp L s) levelUp₁) s) := by
  have hbounds : ∀ leftover : ℤ,
      1 ≤ actualLevel L leftover s ∧ actualLevel L leftover s ≤ L := by
    intro leftover
    unfold actualLevel
    have h0 : 0 ≤ max 0 (clamped 0 leftover (leftover - s)) := le_max_left _ _
    exact ⟨le_max_left _ _, max_le hL (by omega)⟩
  have hanti : ∀ leftover₁ leftover₂ : ℤ, leftover₁ ≤ leftover₂ →
      actualLevel L leftover₂ s ≤ actualLevel L leftover₁ s := by
    intro a b h
    unfold actualLevel
    have := levelReduction_mono s h
    exact max_le_max_left _ (by omega)
  exact ⟨fun levelUp => hbounds _, hbounds, hanti, fun l₁ l₂ h => hanti _ _ h⟩

/-- Witness of C13: level 10 without the variant, no stat-points modifier, the
six stats holding 2 points each. -/
theorem actualLevel_bounds_and_antitone_witness :
    1 ≤ actualLevel 10 (leftoverLevelUpPoints (levelUpPoints false 10 0) [2, 2, 2, 2, 2, 2]) 0 ∧
      actualLevel 10 (leftoverLevelUpPoints (levelUpPoints false 10 0) [2, 2, 2, 2, 2, 2]) 0
        ≤ 10 ∧
      actualLevel 10 (leftoverLevelUpPoints (levelUpPoints false 10 0) [2, 2, 2, 2, 2, 2]) 0
        = 3 :=
  ⟨((actualLevel_bounds_and_antitone false 10 0 (by decide)).1 [2, 2, 2, 2, 2, 2]).1,
    ((actualLevel_bounds_and_antitone false 10 0 (by decide)).1 [2, 2, 2, 2, 2, 2]).2,
    by decide⟩

/-! ## Claims on the contest stats and on the derived health block -/

theorem combatStat_injective : Function.Injective combatStat := by
  intro a b h
  cases a <;> cases b <;> first | rfl | exact absurd h (by decide)

theorem contestEntry_value (t : ℤ) (mod : Option ℤ) (voltage : ℤ) (ht : -(10 ^ 15) ≤ t) :
    (contestEntry t mod voltage).value = min ⌊(t : ℚ) / 10⌋ 3 := by
  simp only [contestEntry, mathFloor]
  by_cases hbig : t ≤ 10 ^ 15
  · rw [floor_fl_div_ten t (abs_le.mpr ⟨ht, hbig⟩)]
  · have h30 : 30 ≤ t := by omega
    have h1 := three_le_floor_fl_div_ten t h30
    have h2 : 3 ≤ ⌊(t : ℚ) / 10⌋ := by
      apply Int.le_floor.mpr
      have : (30 : ℚ) ≤ t := by exact_mod_cast h30
      push_cast
      linarith
    rw [min_eq_right h1, min_eq_right h2]

/-- C14: each of the five contest stats is mapped to its own combat stat (cool to
atk, tough to def, beauty to spatk, smart to spdef, cute to spd); with combat total
`t` (not below `-10 ^ 15`), contest modifier `m` (0 when missing) and voltage `v`,
`prepareDerivedData` sets `stats.value = min(floor(t/10), 3)`,
`stats.total = min(stats.value + m, 3)` and `dice = stats.total + v`, so
`stats.total ≤ 3`; `t = 37`, `m = 0`, `v = 2` give value 3, total 3 and dice 5. -/
theorem contestStats_formula (stats : CombatStat → ℤ) (mods : ContestStat → Option ℤ)
    (voltage : ℤ) (stat : ContestStat) (hbound : -(10 ^ 15) ≤ stats (combatStat stat)) :
    (contestStats stats mods voltage stat).value
        = min ⌊(stats (combatStat stat) : ℚ) / 10⌋ 3 ∧
      (contestStats stats mods voltage stat).total
        = min ((contestStats stats mods voltage stat).value + (mods stat).getD 0) 3 ∧
      (contestStats stats mods voltage stat).dice
        = (contestStats stats mods voltage stat).total + voltage ∧
      (contestStats stats mods voltage stat).total ≤ 3 ∧
      Function.Injective combatStat ∧
      combatStat ContestStat.cool = CombatStat.atk ∧
      combatStat ContestStat.tough = CombatStat.defense ∧
      combatStat ContestStat.beauty = CombatStat.spatk ∧
      combatStat ContestStat.smart = CombatStat.spdef ∧
      combatStat ContestStat.cute = CombatStat.spd ∧
      contestEntry 37 (some 0) 2 = { value := 3, mod := 0, total := 3, dice := 5 } ∧
      contestEntry 37 none 2 = { value := 3, mod := 0, total := 3, dice := 5 } := by
  have h37 : ∀ mod : Option ℤ, (contestEntry 37 mod 2).value = 3 := by
    intro mod
    rw [contestEntry_value 37 mod 2 (by norm_num)]
    have : ⌊((37 : ℤ) : ℚ) / 10⌋ = 3 := Int.floor_eq_iff.mpr ⟨by norm_num, by norm_num⟩
    rw [this]
    decide
  have hentry : ∀ mod : Option ℤ, mod.getD 0 = 0 →
      contestEntry 37 mod 2 = { value := 3, mod := 0, total := 3, dice := 5 } := by
    intro mod hmod
    have hv := h37 mod
    simp only [contestEntry] at hv
    simp only [contestEntry, hv, hmod]
    decide
  refine ⟨contestEntry_value _ _ _ hbound, rfl, rfl, ?_, combatStat_injective,
    rfl, rfl, rfl, rfl, rfl, hentry (some 0) rfl, hentry none rfl⟩
  simp only [contestStats, contestEntry]
  exact min_le_right _ _

/-- Witness of C14: a speed total of 37 and a voltage of 2 give the cute stat 5
dice. -/
theorem contestStats_formula_witness :
    (contestStats (fun _ => 37) (fun _ => none) 2 ContestStat.cute).value
        = min ⌊((37 : ℤ) : ℚ) / 10⌋ 3 ∧
      (contestStats (fun _ => 37) (fun _ => none) 2 ContestStat.cute).total ≤ 3 :=
  ⟨(contestStats_formula (fun _ => 37) (fun _ => none) 2 ContestStat.cute (by norm_num)).1,
    (contestStats_formula (fun _ => 37) (fun _ => none) 2 ContestStat.cute
      (by norm_num)).2.2.2.1⟩

theorem healthMax_hundred_five (hardened : Bool) : healthMax 100 5 hardened = 50 := by
  have hr : reducedInjuries 5 hardened = 5 := by
    cases hardened <;> simp [reducedInjuries]
  rw [healthMax_eq_trunc_exact 100 5 hardened (by norm_num) (by norm_num) (by norm_num)
    (Or.inl (by rw [hr]))]
  rw [hr]
  unfold trunc
  rw [if_pos (by norm_num)]
  exact Int.floor_eq_iff.mpr ⟨by norm_num, by norm_num⟩

theorem healthTick_eq_floor (total : ℤ) (htotal : |total| ≤ 10 ^ 15) :
    healthTick total = ⌊(total : ℚ) / 10⌋ := by
  unfold healthTick mathFloor
  exact floor_fl_div_ten total htotal

/-- C15, as stated, fails: with a health total of 100 and 5 injuries the health
maximum is 50, a tenth of which is 5, but `health.tick` is 10, a tenth of the
total. -/
theorem healthTick_is_not_tenth_of_max :
    (deriveHealth 100 100 5 false).max = 50 ∧
      (deriveHealth 100 100 5 false).tick = 10 ∧
      ⌊(((deriveHealth 100 100 5 false).max : ℤ) : ℚ) / 10⌋ = 5 := by
  have hmax : (deriveHealth 100 100 5 false).max = 50 := healthMax_hundred_five false
  have htick : (deriveHealth 100 100 5 false).tick = 10 := by
    show healthTick 100 = 10
    rw [healthTick_eq_floor 100 (by norm_num)]
    exact Int.floor_eq_iff.mpr ⟨by norm_num, by norm_num⟩
  refine ⟨hmax, htick, ?_⟩
  rw [hmax]
  exact Int.floor_eq_iff.mpr ⟨by norm_num, by norm_num⟩

/-- C15, amended: for every derived character state, injured or not, whose health
total is at most `10 ^ 15` in absolute value, `health.tick` equals `health.total`
divided by 10, rounded down; it does not depend on the injuries. -/
theorem healthTick_is_tenth_of_total (total value injuries : ℤ) (hardened : Bool)
    (htotal : |total| ≤ 10 ^ 15) :
    (deriveHealth total value injuries hardened).tick
        = ⌊(((deriveHealth total value injuries hardened).total : ℤ) : ℚ) / 10⌋ ∧
      (deriveHealth total value injuries hardened).tick
        = (deriveHealth total value 0 hardened).tick := by
  constructor
  · show healthTick total = ⌊(total : ℚ) / 10⌋
    exact healthTick_eq_floor total htotal
  · rfl

/-- Witness of C15: a total of 100 with 5 injuries has a tick of 10. -/
theorem healthTick_is_tenth_of_total_witness :
    (deriveHealth 100 100 5 false).tick
        = ⌊(((deriveHealth 100 100 5 false).total : ℤ) : ℚ) / 10⌋ :=
  (healthTick_is_tenth_of_total 100 100 5 false (by norm_num)).1

theorem healthMax_fifty_ten : healthMax 50 10 false = 0 := by
  have hr : reducedInjuries 10 false = 10 := rfl
  rw [healthMax_eq_trunc_exact 50 10 false (by norm_num) (by norm_num) (by norm_num)
    (Or.inl (by rw [hr]; decide))]
  rw [hr]
  unfold trunc
  rw [if_pos (by norm_num)]
  exact Int.floor_eq_iff.mpr ⟨by norm_num, by norm_num⟩

/-- With a value of 29 and a divisor of 200 the exact percentage is 14.5, which
rounds to 15; the double-precision product is just below 14.5 and rounds to 14. -/
theorem healthPercent_tie_rounds_down :
    healthPercent 29 200 = Rounded.int 14 ∧ ⌊100 * (29 : ℚ) / 200 + 1 / 2⌋ = 15 := by
  have h1 : fl ((29 : ℚ) / 200) = 5224175567749775 / 36028797018963968 := by
    rw [fl_eval _ (-3) 5224175567749775 (by norm_num [abs_of_pos]) (by norm_num [abs_of_pos])
      (by norm_num) (by norm_num)]
    norm_num
  have h2 : fl ((5224175567749775 : ℚ) / 36028797018963968 * 100)
      = 8162774324609023 / 562949953421312 := by
    rw [fl_eval _ 3 8162774324609023 (by norm_num [abs_of_pos]) (by norm_num [abs_of_pos])
      (by norm_num) (by norm_num)]
    norm_num
  constructor
  · simp only [healthPercent, mathRound]
    rw [if_neg (by norm_num)]
    simp only [Int.cast_ofNat]
    rw [h1, h2]
    congr 1
    exact Int.floor_eq_iff.mpr ⟨by norm_num, by norm_num⟩
  · exact Int.floor_eq_iff.mpr ⟨by norm_num, by norm_num⟩

/-- C16, as stated, fails: with a health total of 50, a current value of 20 and 10
injuries (not hardened) the health maximum is 0, the division `value / max`
divides by zero and `health.percent` is `Infinity`, not an integer; with a current value of 0 it is
`NaN`. -/
theorem healthPercent_divides_by_zero :
    (deriveHealth 50 20 10 false).max = 0 ∧
      (deriveHealth 50 20 10 false).percent = Rounded.infinite ∧
      (deriveHealth 0 20 0 false).totalPercent = Rounded.infinite ∧
      (deriveHealth 50 0 10 false).percent = Rounded.nan := by
  have hmax : healthMax 50 10 false = 0 := healthMax_fifty_ten
  refine ⟨hmax, ?_, ?_, ?_⟩
  · show healthPercent 20 (healthMax 50 10 false) = Rounded.infinite
    rw [hmax]
    decide
  · decide
  · show healthPercent 0 (healthMax 50 10 false) = Rounded.nan
    rw [hmax]
    decide

/-- C16, amended: for every derived character state, `health.percent` is an
integer when `health.max` is not zero and `health.totalPercent` is an integer when
`health.total` is not zero; each is the exact percentage `100 * value / divisor`
rounded to the nearest integer (a half going up) when value and divisor are at
most 1,000,000 in absolute value and the exact percentage is not halfway between
two integers. When the divisor is zero the result is `Infinity`, `-Infinity` or
`NaN`. -/
theorem health_percent_integer_unless_zero_divisor (total value injuries : ℤ)
    (hardened : Bool) (hvalue : |value| ≤ 10 ^ 6) :
    ((deriveHealth total value injuries hardened).max ≠ 0 →
        (∃ n, (deriveHealth total value injuries hardened).percent = Rounded.int n) ∧
        (|(deriveHealth total value injuries hardened).max| ≤ 10 ^ 6 →
          ¬ 2 * (deriveHealth total value injuries hardened).max
              ∣ 200 * value + (deriveHealth total value injuries hardened).max →
          (deriveHealth total value injuries hardened).percent
            = Rounded.int ⌊100 * (value : ℚ)
                / ((deriveHealth total value injuries hardened).max : ℤ) + 1 / 2⌋)) ∧
      (total ≠ 0 →
        (∃ n, (deriveHealth total value injuries hardened).totalPercent = Rounded.int n) ∧
        (|total| ≤ 10 ^ 6 → ¬ 2 * total ∣ 200 * value + total →
          (deriveHealth total value injuries hardened).totalPercent
            = Rounded.int ⌊100 * (value : ℚ) / total + 1 / 2⌋)) ∧
      ((deriveHealth total value injuries hardened).max = 0 →
        ∀ n, (deriveHealth total value injuries hardened).percent ≠ Rounded.int n) ∧
      (total = 0 →
        ∀ n, (deriveHealth total value injuries hardened).totalPercent ≠ Rounded.int n) := by
  have hint : ∀ divisor : ℤ, divisor ≠ 0 → ∃ n, healthPercent value divisor = Rounded.int n := by
    intro divisor hd
    exact ⟨mathRound (fl (fl ((value : ℚ) / divisor) * 100)),
      by simp only [healthPercent, hd, ↓reduceIte]⟩
  have hzero : ∀ n, healthPercent value 0 ≠ Rounded.int n := by
    intro n
    simp only [healthPercent, ↓reduceIte]
    split_ifs <;> simp
  refine ⟨?_, ?_, ?_, ?_⟩
  · intro hmax
    exact ⟨hint _ hmax, fun hb htie => healthPercent_eq_round value _ hvalue hb hmax htie⟩
  · intro htotal
    exact ⟨hint _ htotal, fun hb htie => healthPercent_eq_round value _ hvalue hb htotal htie⟩
  · intro hmax n
    show healthPercent value (deriveHealth total value injuries hardened).max ≠ Rounded.int n
    rw [hmax]
    exact hzero n
  · intro htotal n
    show healthPercent value total ≠ Rounded.int n
    rw [htotal]
    exact hzero n

/-- Witness of C16: a total of 100 with 5 injuries and a current value of 20 gives
a percent of 40 and a total percent of 20. -/
theorem health_percent_integer_unless_zero_divisor_witness :
    (deriveHealth 100 20 5 false).totalPercent = Rounded.int ⌊100 * ((20 : ℤ) : ℚ)
        / ((100 : ℤ) : ℚ) + 1 / 2⌋ ∧
      ⌊100 * ((20 : ℤ) : ℚ) / ((100 : ℤ) : ℚ) + 1 / 2⌋ = 20 :=
  ⟨((health_percent_integer_unless_zero_divisor 100 20 5 false (by norm_num)).2.1
      (by norm_num)).2 (by norm_num) (by decide),
    Int.floor_eq_iff.mpr ⟨by norm_num, by norm_num⟩⟩

/-! ## Claim on the modifier pass -/

/-- The modifier pass keeps every key in its place, leaves the entries under the
five skipped keys unchanged, gives a flat group `total = value + mod`, and gives
each sub-key of a nested group that passes the test of line 68 `total = value +
mod`, a missing or `null` `value` or `mod` counting as 0. -/
theorem prepareModifierTotals_totals (modifiers : List (String × ModifierGroup)) :
    (prepareModifierTotals modifiers).map Prod.fst = modifiers.map Prod.fst ∧
      (∀ (i : ℕ) (key : String) (group : ModifierGroup),
        modifiers[i]? = some (key, group) →
        (key ∈ skippedKeys →
          (prepareModifierTotals modifiers)[i]? = some (key, group.unchanged)) ∧
        (key ∉ skippedKeys →
          (∀ modifier, group = ModifierGroup.flat modifier →
            (prepareModifierTotals modifiers)[i]? = some (key, PreparedGroup.flat
              { value := modifier.value, mod := modifier.mod,
                total := Property.number (modifier.value.orZero + modifier.mod.orZero) })) ∧
          (∀ subs, group = ModifierGroup.nested subs →
            hasSubkeys (ModifierGroup.nested subs) = true →
            ∃ prepared, (prepareModifierTotals modifiers)[i]?
                = some (key, PreparedGroup.nested prepared none) ∧
              prepared.map Prod.fst = subs.map Prod.fst ∧
              ∀ (j : ℕ) (subkey : String) (modifier : Modifier),
                subs[j]? = some (subkey, modifier) →
                prepared[j]? = some (subkey,
                  { value := modifier.value, mod := modifier.mod,
                    total := Property.number
                      (modifier.value.orZero + modifier.mod.orZero) })))) ∧
      (∀ subs first rest key, subs = (key, first) :: rest →
        first.value ≠ Property.undefined →
        hasSubkeys (ModifierGroup.nested subs) = true) := by
  refine ⟨?_, ?_, ?_⟩
  · unfold prepareModifierTotals
    rw [List.map_map]
    apply List.map_congr_left
    intro entry _
    simp only [Function.comp]
    split_ifs <;> rfl
  · intro i key group hi
    have hget : (prepareModifierTotals modifiers)[i]?
        = some (if skippedKeys.contains key then (key, group.unchanged)
            else (key, prepareModifier group)) := by
      unfold prepareModifierTotals
      rw [List.getElem?_map, hi]
      rfl
    constructor
    · intro hskip
      rw [hget, if_pos (by simpa using hskip)]
    · intro hskip
      have hno : skippedKeys.contains key = false := by simpa using hskip
      constructor
      · intro modifier hflat
        rw [hget, hno, hflat]
        rfl
      · intro subs hnested hsub
        refine ⟨subs.map (fun entry => (entry.1, entry.2.withTotal)), ?_, ?_, ?_⟩
        · rw [hget, hno, hnested]
          simp only [prepareModifier, hsub, ↓reduceIte, Bool.false_eq_true]
        · rw [List.map_map]
          rfl
        · intro j subkey modifier hj
          rw [List.getElem?_map, hj]
          rfl
  · intro subs first rest key hsubs hfirst
    subst hsubs
    simp only [hasSubkeys]
    cases h : first.value with
    | undefined => exact absurd h hfirst
    | null => rfl
    | number v => rfl

/-- The modifier pass on a skipped flag, a flat group and a nested group whose
second sub-key has no `value`. -/
theorem prepareModifierTotals_on_sample :
    prepareModifierTotals
        [("hardened", ModifierGroup.flat ⟨.undefined, .undefined, .undefined⟩),
         ("acBonus", ModifierGroup.flat ⟨.number 1, .undefined, .undefined⟩),
         ("baseStats", ModifierGroup.nested
           [("hp", ⟨.number 1, .number 2, .undefined⟩),
            ("atk", ⟨.undefined, .number 3, .undefined⟩)])]
      = [("hardened", PreparedGroup.flat ⟨.undefined, .undefined, .undefined⟩),
         ("acBonus", PreparedGroup.flat ⟨.number 1, .undefined, .number 1⟩),
         ("baseStats", PreparedGroup.nested
           [("hp", ⟨.number 1, .number 2, .number 3⟩),
            ("atk", ⟨.undefined, .number 3, .number 3⟩)] none)] ∧
      (prepareModifierTotals
        [("hardened", ModifierGroup.flat ⟨.undefined, .undefined, .undefined⟩),
         ("acBonus", ModifierGroup.flat ⟨.number 1, .undefined, .undefined⟩),
         ("baseStats", ModifierGroup.nested
           [("hp", ⟨.number 1, .number 2, .undefined⟩),
            ("atk", ⟨.undefined, .number 3, .undefined⟩)])]).map Prod.fst
        = ["hardened", "acBonus", "baseStats"] :=
  ⟨by decide,
    (prepareModifierTotals_totals
      [("hardened", ModifierGroup.flat ⟨.undefined, .undefined, .undefined⟩),
       ("acBonus", ModifierGroup.flat ⟨.number 1, .undefined, .undefined⟩),
       ("baseStats", ModifierGroup.nested
         [("hp", ⟨.number 1, .number 2, .undefined⟩),
          ("atk", ⟨.undefined, .number 3, .undefined⟩)])]).1⟩

/-- C17: the nested group `baseStats = {hp: {mod: 2}, atk: {value: 1, mod: 3}}`
has a first sub-key without `value`. The test of line 68 fails on it, the group
takes the flat branch, receives a `total` of 0 of its own, and neither `hp` nor
`atk` receives a `total`, where the claim gives them 2 and 4. With the same
sub-keys in the other order, or with `value: null` on `hp`, the test passes and
every sub-key receives its `total`. -/
theorem nested_group_without_first_value_gets_no_totals :
    prepareModifierTotals
        [("baseStats", ModifierGroup.nested
          [("hp", ⟨.undefined, .number 2, .undefined⟩),
           ("atk", ⟨.number 1, .number 3, .undefined⟩)])]
      = [("baseStats", PreparedGroup.nested
          [("hp", ⟨.undefined, .number 2, .undefined⟩),
           ("atk", ⟨.number 1, .number 3, .undefined⟩)] (some 0))] ∧
      prepareModifierTotals
        [("baseStats", ModifierGroup.nested
          [("atk", ⟨.number 1, .number 3, .undefined⟩),
           ("hp", ⟨.undefined, .number 2, .undefined⟩)])]
      = [("baseStats", PreparedGroup.nested
          [("atk", ⟨.number 1, .number 3, .number 4⟩),
           ("hp", ⟨.undefined, .number 2, .number 2⟩)] none)] ∧
      prepareModifierTotals
        [("baseStats", ModifierGroup.nested
          [("hp", ⟨.null, .number 2, .undefined⟩),
           ("atk", ⟨.number 1, .number 3, .undefined⟩)])]
      = [("baseStats", PreparedGroup.nested
          [("hp", ⟨.null, .number 2, .number 2⟩),
           ("atk", ⟨.number 1, .number 3, .number 4⟩)] none)] := by
  decide

/-! ## Claim on the category branches of `execute` -/

/-- C18: the category branches of `execute` fall through. For a target that is not
vulnerable and every evasion block, a Status action and a Physical action resolve
the slug and value of a Special action: special evasion with slug
"special-evasion" when the target is stuck (it has the stuck condition and is not
of type ghost) or its special evasion exceeds its speed evasion, and speed evasion
with slug "speed-evasion" otherwise. The entry is the one stored in the `targets`
map, the keys of the context collection being distinct. -/
theorem categories_fall_through_to_special (c : Check) (context : TargetContext)
    (hvuln : context.options.contains "target:condition:vulnerable" = false) :
    (∀ range : List Int,
        dcTarget (some "Status") range context = dcTarget (some "Special") range context ∧
        dcTarget (some "Physical") range context = dcTarget (some "Special") range context ∧
        dcTarget (some "Special") range context =
          (if (context.options.contains "target:condition:stuck"
                && !context.options.contains "target:types:ghost") = true
              ∨ context.evasion.special > context.evasion.speed then
            { uuid := context.uuid, critRange := range, slug := some "special-evasion",
              value := some context.evasion.special }
          else
            { uuid := context.uuid, critRange := range, slug := some "speed-evasion",
              value := some context.evasion.speed })) ∧
      (c.item.category = some "Status" ∨ c.item.category = some "Physical"
          ∨ c.item.category = some "Special" →
        context ∈ executeContexts c →
        ((executeContexts c).map TargetContext.uuid).Nodup →
        mapGet (dcs c) context.uuid
          = some (dcTarget (some "Special") (critRange c.actor.critRangeTotal) context)) := by
  have hstatus : ∀ range : List Int,
      dcTarget (some "Status") range context = dcTarget (some "Special") range context := by
    intro range
    simp only [dcTarget, hvuln, Bool.false_eq_true, ↓reduceIte, switchCategory,
      caseSpecial, casePhysical, caseStatus]
    split_ifs <;> simp_all
  have hphysical : ∀ range : List Int,
      dcTarget (some "Physical") range context = dcTarget (some "Special") range context := by
    intro range
    simp only [dcTarget, hvuln, Bool.false_eq_true, ↓reduceIte, switchCategory,
      caseSpecial, casePhysical]
    split_ifs <;> simp_all
  constructor
  · intro range
    refine ⟨hstatus range, hphysical range, ?_⟩
    simp only [dcTarget, hvuln, Bool.false_eq_true, ↓reduceIte, switchCategory, caseSpecial]
    cases hs : (context.options.contains "target:condition:stuck"
        && !context.options.contains "target:types:ghost")
    · by_cases hgt : context.evasion.special > context.evasion.speed
      · simp [hgt]
      · simp [hgt]
    · simp
  · intro hcat hmem hkeys
    rw [mapGet_dcs c context hmem hkeys]
    rcases hcat with h | h | h
    · rw [h, hstatus]
    · rw [h, hphysical]
    · rw [h]

/-- Witness of C18: a Status action against a target of evasions 0, 5 and 2
resolves special evasion 5. -/
theorem categories_fall_through_to_special_witness :
    mapGet (dcs (sampleAttack "Status" ⟨0, 5, 2⟩)) "target"
        = some (dcTarget (some "Special") (critRange none) ⟨"target", [], some 1, ⟨0, 5, 2⟩⟩) ∧
      dcTarget (some "Special") (critRange none) ⟨"target", [], some 1, ⟨0, 5, 2⟩⟩
        = { uuid := "target", critRange := [20], slug := some "special-evasion",
            value := some 5 } :=
  ⟨(categories_fall_through_to_special (sampleAttack "Status" ⟨0, 5, 2⟩)
      ⟨"target", [], some 1, ⟨0, 5, 2⟩⟩ (by decide)).2 (Or.inl rfl) (by decide) (by decide),
    by decide⟩

end PTU
